import Mathlib

/-!
# Choria security provider options (`providers/security/choria/option.go`)

A shallow embedding of the option functions that configure the Choria security
provider, together with the parts of the Go standard library they call
(`encoding/hex`, the `%#U` verb of `fmt`).

Conventions of the embedding:

* a Go `string` is a Lean `String`; its bytes (`[]byte(s)`) are the UTF-8
  encoding computed by `stringBytes`;
* a Go `byte` is a `Nat` below 256, a `[]byte` is a `List Nat`;
* a Go pointer that may be `nil` is an `Option`;
* an `Option` of the Go code (a closure over `*ChoriaSecurity` that mutates the
  receiver and returns an `error`) is a function from the state to an `Outcome`:
  either the call returned, with the state it left behind and the error it
  returned, or it panicked on a nil dereference;
* `runtime.GOOS` and `os.LookupEnv` are explicit parameters.
-/

namespace Choria

/-! ## Go strings as bytes -/

/-- UTF-8 encoding of one code point, as the list of its bytes. -/
def utf8Bytes (c : Char) : List Nat :=
  let v := c.toNat
  if v < 0x80 then [v]
  else if v < 0x800 then [0xC0 + v / 0x40, 0x80 + v % 0x40]
  else if v < 0x10000 then [0xE0 + v / 0x1000, 0x80 + (v / 0x40) % 0x40, 0x80 + v % 0x40]
  else [0xF0 + v / 0x40000, 0x80 + (v / 0x1000) % 0x40, 0x80 + (v / 0x40) % 0x40, 0x80 + v % 0x40]

/-- The byte view of a list of code points. -/
def charsBytes : List Char → List Nat
  | [] => []
  | c :: cs => utf8Bytes c ++ charsBytes cs

/-- The conversion `[]byte(s)`. -/
def stringBytes (s : String) : List Nat :=
  charsBytes s.data

/-! ## `encoding/hex` -/

namespace hex

/-- The two errors `hex.Decode` can return. -/
inductive Error where
  /-- The value `InvalidByteError(b)`. -/
  | InvalidByteError (b : Nat)
  /-- The value `ErrLength`. -/
  | ErrLength
  deriving DecidableEq, Repr

/-- The function `fromHexChar`: the value of a hex digit and whether the byte was one. -/
def fromHexChar (c : Nat) : Nat × Bool :=
  if 0x30 ≤ c ∧ c ≤ 0x39 then (c - 0x30, true)
  else if 0x61 ≤ c ∧ c ≤ 0x66 then (c - 0x61 + 10, true)
  else if 0x41 ≤ c ∧ c ≤ 0x46 then (c - 0x41 + 10, true)
  else (0, false)

/-- The loop of `hex.Decode` over the source bytes still to read, `dst` being the
bytes written so far. Returns the written prefix `dst[:n]` and the error. -/
def decodeLoop : List Nat → List Nat → List Nat × Option Error
  | p :: q :: rest, dst =>
    match fromHexChar p with
    | (_, false) => (dst, some (Error.InvalidByteError p))
    | (a, true) =>
      match fromHexChar q with
      | (_, false) => (dst, some (Error.InvalidByteError q))
      | (b, true) => decodeLoop rest (dst ++ [((a <<< 4) % 256) ||| b])
  | [p], dst =>
    match fromHexChar p with
    | (_, false) => (dst, some (Error.InvalidByteError p))
    | (_, true) => (dst, some Error.ErrLength)
  | [], dst => (dst, none)

/-- The function `hex.Decode`, returning `dst[:n]` and the error. -/
def Decode (src : List Nat) : List Nat × Option Error :=
  decodeLoop src []

/-- The function `hex.DecodeString`. -/
def DecodeString (s : String) : List Nat × Option Error :=
  Decode (stringBytes s)

/-- The constant `hextable`. -/
def hextable : List Char :=
  ['0', '1', '2', '3', '4', '5', '6', '7', '8', '9', 'a', 'b', 'c', 'd', 'e', 'f']

/-- The function `hex.Encode`, producing the destination as characters. -/
def Encode : List Nat → List Char
  | [] => []
  | v :: rest => hextable.getD (v >>> 4) '0' :: hextable.getD (v &&& 0x0f) '0' :: Encode rest

/-- The function `hex.EncodeToString`. -/
def EncodeToString (src : List Nat) : String :=
  String.mk (Encode src)

end hex

/-! ## The `%#U` verb, used by `InvalidByteError.Error` -/

/-- The function `strconv.IsPrint` on the runes up to `0xFF`. -/
def isPrintLatin1 (r : Nat) : Bool :=
  if 0x20 ≤ r ∧ r ≤ 0x7E then true
  else if 0xA1 ≤ r ∧ r ≤ 0xFF then r != 0xAD
  else false

/-- Upper-case hex digit of a nibble. -/
def upperHexDigit (n : Nat) : Char :=
  ['0', '1', '2', '3', '4', '5', '6', '7', '8', '9', 'A', 'B', 'C', 'D', 'E', 'F'].getD n '0'

/-- The rendering of `fmt.Sprintf("%#U", rune(b))` for a byte `b`. -/
def fmtSharpU (b : Nat) : String :=
  "U+00" ++ String.mk [upperHexDigit (b / 16 % 16), upperHexDigit (b % 16)] ++
    (if isPrintLatin1 b then " '" ++ String.mk [Char.ofNat b] ++ "'" else "")

/-- The method `Error()` of the errors of `encoding/hex`. -/
def hex.Error.message : hex.Error → String
  | hex.Error.InvalidByteError b => "encoding/hex: invalid byte: " ++ fmtSharpU b
  | hex.Error.ErrLength => "encoding/hex: odd length hex string"

/-! ## Data model -/

/-- The constant `ed25519.PublicKeySize`. -/
def PublicKeySize : Nat := 32

/-- The fields of `config.ChoriaPluginConfig` read by the security provider. -/
structure ChoriaPluginConfig where
  RemoteSignerURL : String
  RemoteSignerTokenFile : String
  ChoriaSecurityTrustedSigners : List String
  ChoriaSecurityIdentity : String
  deriving DecidableEq, Repr

/-- The settings source `config.Config`: the plugin settings, the server-initiation
flag, and the remaining settings (type `R`), which only the TLS helper reads. -/
structure Settings (R : Type) where
  Choria : ChoriaPluginConfig
  InitiatedByServer : Bool
  rest : R
  deriving DecidableEq

/-- The native configuration `Config` of the provider. `T` is the TLS policy
`tlssetup.Config`, `G` the `inter.RequestSigner` capability. -/
structure Config (T G : Type) where
  TLSConfig : Option T
  TrustedTokenSigners : List (List Nat)
  Identity : String
  TokenFile : String
  SeedFile : String
  RemoteSignerURL : String
  RemoteSignerTokenFile : String
  RemoteSigner : Option G
  deriving DecidableEq

/-- The fields of `ChoriaSecurity` the options touch. `L` is `logrus.Entry`. -/
structure ChoriaSecurity (T G L : Type) where
  conf : Option (Config T G)
  log : Option L
  deriving DecidableEq

/-- The errors built by `fmt.Errorf` in `WithChoriaConfig`, one constructor per
call site, carrying the arguments of the format. -/
inductive Err where
  /-- Line 40: the signer is not valid hex. -/
  | invalidKey (signer : String) (err : hex.Error)
  /-- Line 43: the decoded signer has the wrong length. -/
  | invalidKeySize (signer : String) (len : Nat)
  /-- Line 59: the user environment variable is not set. -/
  | noIdentity (userEnvVar : String)
  deriving DecidableEq, Repr

/-- The text of an error, as formatted by `fmt.Errorf`. -/
def Err.message : Err → String
  | Err.invalidKey signer err =>
    "invalid ed25519 public key: " ++ signer ++ ": " ++ err.message
  | Err.invalidKeySize signer len =>
    "invalid ed25519 public key size: " ++ signer ++ ": " ++ toString len
  | Err.noIdentity userEnvVar =>
    "could not determine client identity, ensure " ++ userEnvVar ++
      " environment variable is set"

/-- What a call of an option does: it returns, leaving the state `s` and the
error `err` (`none` is Go's `nil`), or it panics on a nil pointer dereference. -/
inductive Outcome (S : Type) where
  | ret (s : S) (err : Option Err)
  | nilPanic
  deriving DecidableEq

/-- The type `Option` of the Go code. -/
abbrev Opt (T G L : Type) := ChoriaSecurity T G L → Outcome (ChoriaSecurity T G L)

/-! ## The options -/

/-- The loop of lines 37-47: decode every signer in order, appending to
`cfg.TrustedTokenSigners` (the accumulator `acc`), returning at the first error. -/
def decodeSigners : List String → List (List Nat) → Except Err (List (List Nat))
  | [], acc => Except.ok acc
  | signer :: rest, acc =>
    match hex.DecodeString signer with
    | (_, some err) => Except.error (Err.invalidKey signer err)
    | (pk, none) =>
      if pk.length ≠ PublicKeySize then
        Except.error (Err.invalidKeySize signer pk.length)
      else
        decodeSigners rest (acc ++ [pk])

/-- A signer string the loop accepts: it decodes without error to
`PublicKeySize` bytes. -/
def validSigner (signer : String) : Prop :=
  (hex.DecodeString signer).2 = none ∧ (hex.DecodeString signer).1.length = PublicKeySize

instance (signer : String) : Decidable (validSigner signer) :=
  inferInstanceAs (Decidable (_ ∧ _))

/-- Message containment: `sub` occurs in `msg`. -/
def Mentions (msg sub : String) : Prop :=
  ∃ before after : String, msg = before ++ sub ++ after

/-- The name of the user environment variable, lines 52-55. -/
def userEnvVar (goos : String) : String :=
  if goos = "windows" then "USERNAME" else "USER"

/-- Lines 49-63: the identity of the configuration, or the error of line 59. -/
def resolveIdentity (goos : String) (lookupEnv : String → Option String)
    (identity : String) (initiatedByServer : Bool) : Except Err String :=
  if identity ≠ "" then Except.ok identity
  else if !initiatedByServer then
    match lookupEnv (userEnvVar goos) with
    | none => Except.error (Err.noIdentity (userEnvVar goos))
    | some u => Except.ok u
  else Except.ok ""

/-- The option `WithChoriaConfig`. `tlsConfig` is `tlssetup.TLSConfig`, `goos` is
`runtime.GOOS`, `lookupEnv` is `os.LookupEnv`. -/
def WithChoriaConfig {R T G L : Type} (tlsConfig : Option (Settings R) → T) (goos : String)
    (lookupEnv : String → Option String) (c : Settings R) : Opt T G L :=
  fun s =>
    let cfg : Config T G :=
      { TLSConfig := some (tlsConfig (some c))
        TrustedTokenSigners := []
        Identity := ""
        TokenFile := ""
        SeedFile := ""
        RemoteSignerURL := c.Choria.RemoteSignerURL
        RemoteSignerTokenFile := c.Choria.RemoteSignerTokenFile
        RemoteSigner := none }
    match decodeSigners c.Choria.ChoriaSecurityTrustedSigners cfg.TrustedTokenSigners with
    | Except.error e => Outcome.ret s (some e)
    | Except.ok signers =>
      match resolveIdentity goos lookupEnv c.Choria.ChoriaSecurityIdentity c.InitiatedByServer with
      | Except.error e => Outcome.ret s (some e)
      | Except.ok identity =>
        Outcome.ret { s with conf := some { cfg with TrustedTokenSigners := signers, Identity := identity } } none

/-- The option `WithTokenFile`. -/
def WithTokenFile {T G L : Type} (f : String) : Opt T G L :=
  fun s =>
    match s.conf with
    | none => Outcome.nilPanic
    | some conf => Outcome.ret { s with conf := some { conf with TokenFile := f } } none

/-- The option `WithSeedFile`. -/
def WithSeedFile {T G L : Type} (f : String) : Opt T G L :=
  fun s =>
    match s.conf with
    | none => Outcome.nilPanic
    | some conf => Outcome.ret { s with conf := some { conf with SeedFile := f } } none

/-- The option `WithSigner`. The argument is an interface value, `none` being `nil`. -/
def WithSigner {T G L : Type} (signer : Option G) : Opt T G L :=
  fun s =>
    match s.conf with
    | none => Outcome.nilPanic
    | some conf => Outcome.ret { s with conf := some { conf with RemoteSigner := signer } } none

/-- The option `WithConfig`. The argument is a pointer, `none` being `nil`. -/
def WithConfig {R T G L : Type} (tlsConfig : Option (Settings R) → T)
    (c : Option (Config T G)) : Opt T G L :=
  fun s =>
    match c with
    | none => Outcome.nilPanic
    | some conf =>
      match conf.TLSConfig with
      | none => Outcome.ret { s with conf := some { conf with TLSConfig := some (tlsConfig none) } } none
      | some _ => Outcome.ret { s with conf := some conf } none

/-- The option `WithLog`. `withFields` is the call
`l.WithFields(logrus.Fields{"security": "choria"})`; a nil `l` panics in it. -/
def WithLog {R T G L : Type} (tlsConfig : Option (Settings R) → T) (withFields : L → L)
    (l : Option L) : Opt T G L :=
  fun s =>
    match l with
    | none => Outcome.nilPanic
    | some entry =>
      match s.conf with
      | none => Outcome.nilPanic
      | some conf =>
        match conf.TLSConfig with
        | none =>
          Outcome.ret { conf := some { conf with TLSConfig := some (tlsConfig none) }
                        log := some (withFields entry) } none
        | some _ => Outcome.ret { s with log := some (withFields entry) } none

/-! ## Sequences of options -/

/-- The options of this module as data: one constructor per option, carrying its
argument. -/
inductive Step (R T G L : Type) where
  | choriaConfig (c : Settings R)
  | tokenFile (f : String)
  | seedFile (f : String)
  | signer (signer : Option G)
  | config (c : Option (Config T G))
  | log (l : Option L)

/-- The option a `Step` stands for. -/
def Step.run {R T G L : Type} (tlsConfig : Option (Settings R) → T) (goos : String)
    (lookupEnv : String → Option String) (withFields : L → L) : Step R T G L → Opt T G L
  | Step.choriaConfig c => WithChoriaConfig tlsConfig goos lookupEnv c
  | Step.tokenFile f => WithTokenFile f
  | Step.seedFile f => WithSeedFile f
  | Step.signer g => WithSigner g
  | Step.config c => WithConfig tlsConfig c
  | Step.log l => WithLog tlsConfig withFields l

/-- The step is a setter or `WithLog`: it works on the configuration in place,
where `WithChoriaConfig` and `WithConfig` store another one. -/
def Step.keepsConf {R T G L : Type} : Step R T G L → Bool
  | Step.choriaConfig _ => false
  | Step.config _ => false
  | Step.tokenFile _ => true
  | Step.seedFile _ => true
  | Step.signer _ => true
  | Step.log _ => true

/-- Modelled from the spec: the builder, which is not among the sources. It
"applies them one at a time to a shared in-progress configuration object; the first
step that fails aborts immediately and returns that error - no further steps run".
A panic of a step ends the run as well. -/
def runSteps {R T G L : Type} (tlsConfig : Option (Settings R) → T) (goos : String)
    (lookupEnv : String → Option String) (withFields : L → L) :
    List (Step R T G L) → ChoriaSecurity T G L → Outcome (ChoriaSecurity T G L)
  | [], s => Outcome.ret s none
  | step :: rest, s =>
    match step.run tlsConfig goos lookupEnv withFields s with
    | Outcome.ret s' none => runSteps tlsConfig goos lookupEnv withFields rest s'
    | Outcome.ret s' (some e) => Outcome.ret s' (some e)
    | Outcome.nilPanic => Outcome.nilPanic

/-- The provider before any option ran. The constructor is not among the sources;
`conf` and `log` are pointers that only the options above assign, so until one of
them ran they hold Go's zero value `nil`. -/
def initialState {T G L : Type} : ChoriaSecurity T G L :=
  { conf := none, log := none }

/-! ## Vocabulary of the claims about signer strings -/

/-- A hexadecimal digit in either case: `0-9` (0x30-0x39), `a-f` (0x61-0x66) or
`A-F` (0x41-0x46). -/
def isHexDigit (c : Char) : Prop :=
  (0x30 ≤ c.toNat ∧ c.toNat ≤ 0x39) ∨ (0x61 ≤ c.toNat ∧ c.toNat ≤ 0x66) ∨
    (0x41 ≤ c.toNat ∧ c.toNat ≤ 0x46)

instance (c : Char) : Decidable (isHexDigit c) :=
  inferInstanceAs (Decidable (_ ∨ _))

/-- The string consists of exactly 64 hexadecimal digits. -/
def isHex64 (s : String) : Prop :=
  s.length = 64 ∧ ∀ ch ∈ s.data, isHexDigit ch

instance (s : String) : Decidable (isHex64 s) :=
  inferInstanceAs (Decidable (_ ∧ _))

/-- ASCII lower-casing of a byte: `A-Z` (0x41-0x5A) go to `a-z`. -/
def lowerByte (b : Nat) : Nat :=
  if 0x41 ≤ b ∧ b ≤ 0x5A then b + 0x20 else b

/-- Two strings that differ only in the case of their ASCII letters. -/
def sameUpToCase (s t : String) : Prop :=
  (stringBytes s).map lowerByte = (stringBytes t).map lowerByte

instance (s t : String) : Decidable (sameUpToCase s t) :=
  inferInstanceAs (Decidable (_ = _))

/-- The identity of the settings can be resolved: it is explicit, or the process is
in the server role, or the user environment variable of the host OS is present. -/
def resolvable {R : Type} (goos : String) (lookupEnv : String → Option String)
    (c : Settings R) : Prop :=
  c.Choria.ChoriaSecurityIdentity ≠ "" ∨ c.InitiatedByServer = true ∨
    (lookupEnv (userEnvVar goos)).isSome = true

instance {R : Type} (goos : String) (lookupEnv : String → Option String) (c : Settings R) :
    Decidable (resolvable goos lookupEnv c) :=
  inferInstanceAs (Decidable (_ ∨ _))

/-! ## Sample inputs -/

/-- The signer `"deadbeef"` repeated 8 times: 64 hex digits, 32 bytes. -/
def deadbeefSigner : String :=
  "deadbeefdeadbeefdeadbeefdeadbeefdeadbeefdeadbeefdeadbeefdeadbeef"

/-- The key `deadbeefSigner` decodes to. -/
def deadbeefKey : List Nat :=
  [0xde, 0xad, 0xbe, 0xef, 0xde, 0xad, 0xbe, 0xef, 0xde, 0xad, 0xbe, 0xef, 0xde, 0xad, 0xbe, 0xef,
   0xde, 0xad, 0xbe, 0xef, 0xde, 0xad, 0xbe, 0xef, 0xde, 0xad, 0xbe, 0xef, 0xde, 0xad, 0xbe, 0xef]

/-- A settings source with the given signers, identity and server flag and no
remote signer. -/
def sampleSettings (signers : List String) (identity : String) (server : Bool) : Settings Unit :=
  { Choria :=
      { RemoteSignerURL := ""
        RemoteSignerTokenFile := ""
        ChoriaSecurityTrustedSigners := signers
        ChoriaSecurityIdentity := identity }
    InitiatedByServer := server
    rest := () }

/-- A TLS helper over trivial policies. -/
def sampleTLS : Option (Settings Unit) → Unit := fun _ => ()

/-- The state of a provider no option has been applied to. -/
def emptyState : ChoriaSecurity Unit Unit Unit :=
  { conf := none, log := none }

/-- The state a successful `WithChoriaConfig` step leaves from `sampleSettings`
and `emptyState`, given the keys and identity it stores. -/
def sampleBuilt (keys : List (List Nat)) (identity : String) : ChoriaSecurity Unit Unit Unit :=
  { conf := some
      { TLSConfig := some ()
        TrustedTokenSigners := keys
        Identity := identity
        TokenFile := ""
        SeedFile := ""
        RemoteSignerURL := ""
        RemoteSignerTokenFile := ""
        RemoteSigner := none }
    log := none }

/-- A native configuration with identity `"bob"`, token file `"tok"` and the TLS
policy `tls`. -/
def sampleConfig (tls : Option Unit) : Config Unit Unit :=
  { TLSConfig := tls
    TrustedTokenSigners := [deadbeefKey]
    Identity := "bob"
    TokenFile := "tok"
    SeedFile := ""
    RemoteSignerURL := ""
    RemoteSignerTokenFile := ""
    RemoteSigner := none }

/-- An environment with no variable set. -/
def noEnv : String → Option String := fun _ => none

/-- An environment in which only the variable `name` is set, to `value`. -/
def oneEnv (name value : String) : String → Option String :=
  fun n => if n = name then some value else none

/-! ## The signer loop -/

theorem decodeSigners_cons_valid (signer : String) (rest : List String) (acc : List (List Nat))
    (h : validSigner signer) :
    decodeSigners (signer :: rest) acc
      = decodeSigners rest (acc ++ [(hex.DecodeString signer).1]) := by
  obtain ⟨h1, h2⟩ := h
  rw [decodeSigners]
  split
  · rename_i e heq
    rw [heq] at h1
    simp at h1
  · rename_i pk heq
    rw [heq] at h2
    simp only [heq]
    simp at h2
    simp [h2]

theorem decodeSigners_append_valid (pre rest : List String) (acc : List (List Nat))
    (h : ∀ p ∈ pre, validSigner p) :
    decodeSigners (pre ++ rest) acc
      = decodeSigners rest (acc ++ pre.map (fun p => (hex.DecodeString p).1)) := by
  induction pre generalizing acc with
  | nil => simp
  | cons p ps ih =>
    have hp : validSigner p := h p (List.mem_cons_self _ _)
    have hps : ∀ q ∈ ps, validSigner q := fun q hq => h q (List.mem_cons_of_mem _ hq)
    rw [List.cons_append, decodeSigners_cons_valid _ _ _ hp, ih _ hps]
    simp

theorem decodeSigners_valid (l : List String) (acc : List (List Nat))
    (h : ∀ p ∈ l, validSigner p) :
    decodeSigners l acc = Except.ok (acc ++ l.map (fun p => (hex.DecodeString p).1)) := by
  have := decodeSigners_append_valid l [] acc h
  simpa [decodeSigners] using this

theorem decodeSigners_cons_badEncoding (signer : String) (rest : List String)
    (acc : List (List Nat)) (e : hex.Error) (h : (hex.DecodeString signer).2 = some e) :
    decodeSigners (signer :: rest) acc = Except.error (Err.invalidKey signer e) := by
  rw [decodeSigners]
  split
  · rename_i e2 heq
    rw [heq] at h
    simp at h
    rw [h]
  · rename_i pk heq
    rw [heq] at h
    simp at h

theorem decodeSigners_cons_badSize (signer : String) (rest : List String)
    (acc : List (List Nat)) (h1 : (hex.DecodeString signer).2 = none)
    (h2 : (hex.DecodeString signer).1.length ≠ PublicKeySize) :
    decodeSigners (signer :: rest) acc
      = Except.error (Err.invalidKeySize signer (hex.DecodeString signer).1.length) := by
  rw [decodeSigners]
  split
  · rename_i e2 heq
    rw [heq] at h1
    simp at h1
  · rename_i pk heq
    rw [heq] at h2
    simp only [heq]
    simp at h2
    simp [h2]

theorem decodeSigners_ok_inv (l : List String) (acc r : List (List Nat))
    (h : decodeSigners l acc = Except.ok r) :
    (∀ p ∈ l, validSigner p) ∧ r = acc ++ l.map (fun p => (hex.DecodeString p).1) := by
  induction l generalizing acc with
  | nil =>
    simp [decodeSigners] at h
    simp [h]
  | cons p ps ih =>
    by_cases hp : validSigner p
    · rw [decodeSigners_cons_valid _ _ _ hp] at h
      obtain ⟨h1, h2⟩ := ih _ h
      refine ⟨?_, ?_⟩
      · intro q hq
        rcases List.mem_cons.mp hq with rfl | hq
        · exact hp
        · exact h1 q hq
      · simp [h2]
    · exfalso
      unfold validSigner at hp
      by_cases h1 : (hex.DecodeString p).2 = none
      · have h2 : (hex.DecodeString p).1.length ≠ PublicKeySize := fun h2 => hp ⟨h1, h2⟩
        rw [decodeSigners_cons_badSize _ _ _ h1 h2] at h
        cases h
      · obtain ⟨e, he⟩ := Option.ne_none_iff_exists'.mp h1
        rw [decodeSigners_cons_badEncoding _ _ _ e he] at h
        cases h

/-! ## Decoding what `hex.Encode` wrote -/

set_option maxRecDepth 100000 in
theorem hexDigit_facts : ∀ v, v < 256 →
    utf8Bytes (hex.hextable.getD (v >>> 4) '0')
      = [(utf8Bytes (hex.hextable.getD (v >>> 4) '0')).headD 0] ∧
    utf8Bytes (hex.hextable.getD (v &&& 0x0f) '0')
      = [(utf8Bytes (hex.hextable.getD (v &&& 0x0f) '0')).headD 0] ∧
    hex.fromHexChar ((utf8Bytes (hex.hextable.getD (v >>> 4) '0')).headD 0) = (v >>> 4, true) ∧
    hex.fromHexChar ((utf8Bytes (hex.hextable.getD (v &&& 0x0f) '0')).headD 0)
      = (v &&& 0x0f, true) ∧
    ((((v >>> 4) <<< 4) % 256) ||| (v &&& 0x0f)) = v := by
  decide

theorem decodeLoop_pair (p q a b : Nat) (rest dst : List Nat)
    (hp : hex.fromHexChar p = (a, true)) (hq : hex.fromHexChar q = (b, true)) :
    hex.decodeLoop (p :: q :: rest) dst
      = hex.decodeLoop rest (dst ++ [((a <<< 4) % 256) ||| b]) := by
  rw [hex.decodeLoop]
  simp only [hp, hq]

theorem decodeLoop_Encode (k dst : List Nat) (hk : ∀ b ∈ k, b < 256) :
    hex.decodeLoop (charsBytes (hex.Encode k)) dst = (dst ++ k, none) := by
  induction k generalizing dst with
  | nil => simp [hex.Encode, charsBytes, hex.decodeLoop]
  | cons v vs ih =>
    have hv : v < 256 := hk v (List.mem_cons_self _ _)
    have hvs : ∀ b ∈ vs, b < 256 := fun b hb => hk b (List.mem_cons_of_mem _ hb)
    obtain ⟨h1, h2, h3, h4, h5⟩ := hexDigit_facts v hv
    rw [hex.Encode, charsBytes, charsBytes, h1, h2]
    simp only [List.singleton_append]
    rw [decodeLoop_pair _ _ _ _ _ _ h3 h4, h5, ih _ hvs]
    simp

theorem DecodeString_EncodeToString (k : List Nat) (hk : ∀ b ∈ k, b < 256) :
    hex.DecodeString (hex.EncodeToString k) = (k, none) := by
  have := decodeLoop_Encode k [] hk
  simpa [hex.DecodeString, hex.Decode, hex.EncodeToString, stringBytes] using this

/-! ## Identity resolution -/

theorem resolveIdentity_explicit (goos : String) (lookupEnv : String → Option String)
    (identity : String) (server : Bool) (h : identity ≠ "") :
    resolveIdentity goos lookupEnv identity server = Except.ok identity := by
  simp [resolveIdentity, h]

theorem resolveIdentity_client (goos : String) (lookupEnv : String → Option String) :
    resolveIdentity goos lookupEnv "" false
      = match lookupEnv (userEnvVar goos) with
        | none => Except.error (Err.noIdentity (userEnvVar goos))
        | some u => Except.ok u := by
  simp [resolveIdentity]

theorem resolveIdentity_server (goos : String) (lookupEnv : String → Option String) :
    resolveIdentity goos lookupEnv "" true = Except.ok "" := by
  simp [resolveIdentity]

theorem resolveIdentity_resolvable (goos : String) (lookupEnv : String → Option String)
    (identity : String) (server : Bool)
    (h : identity ≠ "" ∨ server = true ∨ (lookupEnv (userEnvVar goos)).isSome = true) :
    ∃ r, resolveIdentity goos lookupEnv identity server = Except.ok r := by
  by_cases hi : identity = ""
  · subst hi
    cases server with
    | true => exact ⟨_, resolveIdentity_server goos lookupEnv⟩
    | false =>
      rcases h with h | h | h
      · exact absurd rfl h
      · cases h
      · rw [resolveIdentity_client]
        cases hl : lookupEnv (userEnvVar goos) with
        | none => rw [hl] at h; cases h
        | some u => exact ⟨u, rfl⟩
  · exact ⟨_, resolveIdentity_explicit goos lookupEnv identity server hi⟩

/-! ## The three ways `WithChoriaConfig` returns -/

section Returns

variable {R T G L : Type} (tlsConfig : Option (Settings R) → T) (goos : String)
  (lookupEnv : String → Option String) (c : Settings R) (st : ChoriaSecurity T G L)

theorem WithChoriaConfig_signersError (e : Err)
    (h : decodeSigners c.Choria.ChoriaSecurityTrustedSigners [] = Except.error e) :
    WithChoriaConfig tlsConfig goos lookupEnv c st = Outcome.ret st (some e) := by
  simp [WithChoriaConfig, h]

theorem WithChoriaConfig_identityError (signers : List (List Nat)) (e : Err)
    (h : decodeSigners c.Choria.ChoriaSecurityTrustedSigners [] = Except.ok signers)
    (hi : resolveIdentity goos lookupEnv c.Choria.ChoriaSecurityIdentity c.InitiatedByServer
      = Except.error e) :
    WithChoriaConfig tlsConfig goos lookupEnv c st = Outcome.ret st (some e) := by
  simp [WithChoriaConfig, h, hi]

theorem WithChoriaConfig_ok (signers : List (List Nat)) (identity : String)
    (h : decodeSigners c.Choria.ChoriaSecurityTrustedSigners [] = Except.ok signers)
    (hi : resolveIdentity goos lookupEnv c.Choria.ChoriaSecurityIdentity c.InitiatedByServer
      = Except.ok identity) :
    WithChoriaConfig tlsConfig goos lookupEnv c st
      = Outcome.ret
          { conf := some
              { TLSConfig := some (tlsConfig (some c))
                TrustedTokenSigners := signers
                Identity := identity
                TokenFile := ""
                SeedFile := ""
                RemoteSignerURL := c.Choria.RemoteSignerURL
                RemoteSignerTokenFile := c.Choria.RemoteSignerTokenFile
                RemoteSigner := none }
            log := st.log } none := by
  simp [WithChoriaConfig, h, hi]

theorem WithChoriaConfig_ok_inv (st' : ChoriaSecurity T G L)
    (h : WithChoriaConfig tlsConfig goos lookupEnv c st = Outcome.ret st' none) :
    ∃ signers identity,
      decodeSigners c.Choria.ChoriaSecurityTrustedSigners [] = Except.ok signers ∧
      resolveIdentity goos lookupEnv c.Choria.ChoriaSecurityIdentity c.InitiatedByServer
        = Except.ok identity ∧
      st' =
          { conf := some
              { TLSConfig := some (tlsConfig (some c))
                TrustedTokenSigners := signers
                Identity := identity
                TokenFile := ""
                SeedFile := ""
                RemoteSignerURL := c.Choria.RemoteSignerURL
                RemoteSignerTokenFile := c.Choria.RemoteSignerTokenFile
                RemoteSigner := none }
            log := st.log } := by
  cases hd : decodeSigners c.Choria.ChoriaSecurityTrustedSigners [] with
  | error e =>
    rw [WithChoriaConfig_signersError tlsConfig goos lookupEnv c st e hd] at h
    cases h
  | ok signers =>
    cases hi : resolveIdentity goos lookupEnv c.Choria.ChoriaSecurityIdentity
        c.InitiatedByServer with
    | error e =>
      rw [WithChoriaConfig_identityError tlsConfig goos lookupEnv c st signers e hd hi] at h
      cases h
    | ok identity =>
      rw [WithChoriaConfig_ok tlsConfig goos lookupEnv c st signers identity hd hi] at h
      refine ⟨signers, identity, rfl, rfl, ?_⟩
      cases h
      rfl

theorem WithChoriaConfig_err_inv (st' : ChoriaSecurity T G L) (e : Err)
    (h : WithChoriaConfig tlsConfig goos lookupEnv c st = Outcome.ret st' (some e)) :
    st' = st ∧
      (decodeSigners c.Choria.ChoriaSecurityTrustedSigners [] = Except.error e ∨
        ((∀ p ∈ c.Choria.ChoriaSecurityTrustedSigners, validSigner p) ∧
          resolveIdentity goos lookupEnv c.Choria.ChoriaSecurityIdentity c.InitiatedByServer
            = Except.error e)) := by
  cases hd : decodeSigners c.Choria.ChoriaSecurityTrustedSigners [] with
  | error e2 =>
    rw [WithChoriaConfig_signersError tlsConfig goos lookupEnv c st e2 hd] at h
    cases h
    exact ⟨rfl, Or.inl rfl⟩
  | ok signers =>
    cases hi : resolveIdentity goos lookupEnv c.Choria.ChoriaSecurityIdentity
        c.InitiatedByServer with
    | error e2 =>
      rw [WithChoriaConfig_identityError tlsConfig goos lookupEnv c st signers e2 hd hi] at h
      cases h
      exact ⟨rfl, Or.inr ⟨(decodeSigners_ok_inv _ _ _ hd).1, rfl⟩⟩
    | ok identity =>
      rw [WithChoriaConfig_ok tlsConfig goos lookupEnv c st signers identity hd hi] at h
      cases h

end Returns

/-! ## The two ways `WithConfig` returns on a non-nil configuration -/

theorem WithConfig_noTLS {R T G L : Type} (tlsConfig : Option (Settings R) → T)
    (conf : Config T G) (st : ChoriaSecurity T G L) (h : conf.TLSConfig = none) :
    WithConfig tlsConfig (some conf) st
      = Outcome.ret
          { conf := some { conf with TLSConfig := some (tlsConfig none) }, log := st.log }
          none := by
  simp [WithConfig, h]

theorem WithConfig_hasTLS {R T G L : Type} (tlsConfig : Option (Settings R) → T)
    (conf : Config T G) (st : ChoriaSecurity T G L) (t : T) (h : conf.TLSConfig = some t) :
    WithConfig tlsConfig (some conf) st
      = Outcome.ret { conf := some conf, log := st.log } none := by
  simp [WithConfig, h]

/-! ## Claims -/

/-- C1: when the signer list is `pre ++ s :: post`, every entry of `pre` is a valid
32-byte key and `s` fails hex decoding, the step of `WithChoriaConfig` returns the
invalid-key error built from `s` and the decoding error, leaves the state as it
was, and the text of the error contains `s`; this for every identity, server flag,
host OS and environment. -/
theorem C1_invalid_encoding_rejected {R T G L : Type} (tlsConfig : Option (Settings R) → T)
    (goos : String) (lookupEnv : String → Option String) (c : Settings R)
    (st : ChoriaSecurity T G L) (pre post : List String) (s : String)
    (hlist : c.Choria.ChoriaSecurityTrustedSigners = pre ++ s :: post)
    (hpre : ∀ p ∈ pre, validSigner p)
    (hs : (hex.DecodeString s).2 ≠ none) :
    ∃ e, (hex.DecodeString s).2 = some e ∧
      WithChoriaConfig tlsConfig goos lookupEnv c st
        = Outcome.ret st (some (Err.invalidKey s e)) ∧
      Mentions (Err.invalidKey s e).message s := by
  obtain ⟨e, he⟩ := Option.ne_none_iff_exists'.mp hs
  refine ⟨e, he, ?_, ?_⟩
  · apply WithChoriaConfig_signersError
    rw [hlist, decodeSigners_append_valid _ _ _ hpre]
    exact decodeSigners_cons_badEncoding _ _ _ e he
  · exact ⟨"invalid ed25519 public key: ", ": " ++ e.message, by simp [Err.message, String.append_assoc]⟩

/-- C1 at the signers `[deadbeefSigner, "zz"]`: the error references `"zz"`. -/
theorem C1_invalid_encoding_rejected_witness :
    ∃ e, (hex.DecodeString "zz").2 = some e ∧
      WithChoriaConfig sampleTLS "linux" noEnv
          (sampleSettings [deadbeefSigner, "zz"] "" false) emptyState
        = Outcome.ret emptyState (some (Err.invalidKey "zz" e)) ∧
      Mentions (Err.invalidKey "zz" e).message "zz" :=
  C1_invalid_encoding_rejected sampleTLS "linux" noEnv
    (sampleSettings [deadbeefSigner, "zz"] "" false) emptyState [deadbeefSigner] [] "zz"
    rfl (by decide) (by decide)

/-- C2: when the signer list is `pre ++ s :: post`, every entry of `pre` is a valid
32-byte key and `s` hex-decodes without error to `n` bytes with `n ≠ 32` (the empty
string, `n = 0`, included), the step of `WithChoriaConfig` returns the invalid-size
error built from `s` and `n`, and the text of the error contains both `s` and the
decimal numeral of `n`. -/
theorem C2_invalid_size_rejected {R T G L : Type} (tlsConfig : Option (Settings R) → T)
    (goos : String) (lookupEnv : String → Option String) (c : Settings R)
    (st : ChoriaSecurity T G L) (pre post : List String) (s : String) (pk : List Nat)
    (hlist : c.Choria.ChoriaSecurityTrustedSigners = pre ++ s :: post)
    (hpre : ∀ p ∈ pre, validSigner p)
    (hs : hex.DecodeString s = (pk, none))
    (hn : pk.length ≠ 32) :
    WithChoriaConfig tlsConfig goos lookupEnv c st
        = Outcome.ret st (some (Err.invalidKeySize s pk.length)) ∧
      Mentions (Err.invalidKeySize s pk.length).message s ∧
      Mentions (Err.invalidKeySize s pk.length).message (Nat.repr pk.length) := by
  refine ⟨?_, ?_, ?_⟩
  · apply WithChoriaConfig_signersError
    rw [hlist, decodeSigners_append_valid _ _ _ hpre]
    have h1 : (hex.DecodeString s).2 = none := by rw [hs]
    have h2 : (hex.DecodeString s).1.length ≠ PublicKeySize := by rw [hs]; exact hn
    have := decodeSigners_cons_badSize s post
      ([] ++ pre.map (fun p => (hex.DecodeString p).1)) h1 h2
    rw [hs] at this
    exact this
  · exact ⟨"invalid ed25519 public key size: ", ": " ++ toString pk.length,
      by simp [Err.message, String.append_assoc]⟩
  · exact ⟨"invalid ed25519 public key size: " ++ s ++ ": ", "",
      by simp [Err.message, String.append_assoc]; rfl⟩

/-- C2 at the signers `[deadbeefSigner, ""]`: the empty string decodes to 0 bytes and
the error text is `invalid ed25519 public key size: : 0`. -/
theorem C2_invalid_size_rejected_witness :
    WithChoriaConfig sampleTLS "linux" noEnv
        (sampleSettings [deadbeefSigner, ""] "me" false) emptyState
        = Outcome.ret emptyState (some (Err.invalidKeySize "" 0)) ∧
      Mentions (Err.invalidKeySize "" 0).message "" ∧
      Mentions (Err.invalidKeySize "" 0).message "0" :=
  C2_invalid_size_rejected sampleTLS "linux" noEnv
    (sampleSettings [deadbeefSigner, ""] "me" false) emptyState [deadbeefSigner] [] "" []
    rfl (by decide) (by decide) (by decide)

/-- C3: whenever the step of `WithChoriaConfig` returns no error, the resulting
configuration is set and its `TrustedTokenSigners` matches the configured signer
list position by position: same length, and each entry is exactly 32 bytes long
and is what `hex.DecodeString` returns, without error, for the signer at the same
position. -/
theorem C3_trusted_signers_decoded {R T G L : Type} (tlsConfig : Option (Settings R) → T)
    (goos : String) (lookupEnv : String → Option String) (c : Settings R)
    (st st' : ChoriaSecurity T G L)
    (h : WithChoriaConfig tlsConfig goos lookupEnv c st = Outcome.ret st' none) :
    ∃ cfg, st'.conf = some cfg ∧
      List.Forall₂ (fun signer pk => hex.DecodeString signer = (pk, none) ∧ pk.length = 32)
        c.Choria.ChoriaSecurityTrustedSigners cfg.TrustedTokenSigners := by
  obtain ⟨signers, identity, hd, -, rfl⟩ := WithChoriaConfig_ok_inv tlsConfig goos lookupEnv c st st' h
  obtain ⟨hv, rfl⟩ := decodeSigners_ok_inv _ _ _ hd
  refine ⟨_, rfl, ?_⟩
  simp only [List.nil_append]
  rw [List.forall₂_map_right_iff, List.forall₂_same]
  intro p hp
  obtain ⟨h1, h2⟩ := hv p hp
  exact ⟨Prod.ext rfl h1, h2⟩

/-- C3 at the signers `[deadbeefSigner, deadbeefSigner]` with identity `"me"`: the
step succeeds and both stored keys are the 32 bytes of `deadbeefKey`. -/
theorem C3_trusted_signers_decoded_witness :
    WithChoriaConfig sampleTLS "linux" noEnv
        (sampleSettings [deadbeefSigner, deadbeefSigner] "me" false) emptyState
      = Outcome.ret (sampleBuilt [deadbeefKey, deadbeefKey] "me") none ∧
    ∃ cfg, (sampleBuilt [deadbeefKey, deadbeefKey] "me").conf = some cfg ∧
      List.Forall₂ (fun signer pk => hex.DecodeString signer = (pk, none) ∧ pk.length = 32)
        [deadbeefSigner, deadbeefSigner] cfg.TrustedTokenSigners :=
  ⟨by decide,
   C3_trusted_signers_decoded sampleTLS "linux" noEnv
    (sampleSettings [deadbeefSigner, deadbeefSigner] "me" false) emptyState
    (sampleBuilt [deadbeefKey, deadbeefKey] "me") (by decide)⟩

/-- C4: for every list `ks` of 32-byte keys (duplicates allowed), when the signer list
is `hex.EncodeToString` of each key of `ks` and the identity is resolvable (explicit,
or server role, or the user variable present), the step of `WithChoriaConfig`
returns no error and the resulting `TrustedTokenSigners` is `ks` itself: same
length, same order, duplicates kept; each key decodes back from its encoding. -/
theorem C4_encoded_keys_roundtrip {R T G L : Type} (tlsConfig : Option (Settings R) → T)
    (goos : String) (lookupEnv : String → Option String) (c : Settings R)
    (st : ChoriaSecurity T G L) (ks : List (List Nat))
    (hks : ∀ k ∈ ks, k.length = 32 ∧ ∀ b ∈ k, b < 256)
    (hsig : c.Choria.ChoriaSecurityTrustedSigners = ks.map hex.EncodeToString)
    (hid : c.Choria.ChoriaSecurityIdentity ≠ "" ∨ c.InitiatedByServer = true ∨
      (lookupEnv (userEnvVar goos)).isSome = true) :
    (∃ st' cfg, WithChoriaConfig tlsConfig goos lookupEnv c st = Outcome.ret st' none ∧
      st'.conf = some cfg ∧ cfg.TrustedTokenSigners = ks) ∧
    ∀ k ∈ ks, hex.DecodeString (hex.EncodeToString k) = (k, none) := by
  have hrt : ∀ k ∈ ks, hex.DecodeString (hex.EncodeToString k) = (k, none) :=
    fun k hk => DecodeString_EncodeToString k (hks k hk).2
  refine ⟨?_, hrt⟩
  obtain ⟨identity, hi⟩ := resolveIdentity_resolvable goos lookupEnv _ _ hid
  have hvalid : ∀ p ∈ c.Choria.ChoriaSecurityTrustedSigners, validSigner p := by
    intro p hp
    rw [hsig] at hp
    obtain ⟨k, hk, rfl⟩ := List.mem_map.mp hp
    unfold validSigner
    rw [hrt k hk]
    exact ⟨rfl, (hks k hk).1⟩
  have hd := decodeSigners_valid _ [] hvalid
  have hmap : c.Choria.ChoriaSecurityTrustedSigners.map (fun p => (hex.DecodeString p).1) = ks := by
    rw [hsig, List.map_map]
    calc ks.map ((fun p => (hex.DecodeString p).1) ∘ hex.EncodeToString)
        = ks.map id := List.map_congr_left (fun k hk => by simp [hrt k hk])
      _ = ks := List.map_id ks
  rw [List.nil_append, hmap] at hd
  exact ⟨_, _, WithChoriaConfig_ok tlsConfig goos lookupEnv c st ks identity hd hi, rfl, rfl⟩

/-- C4 at the keys `[deadbeefKey, deadbeefKey]` (a duplicate), identity `"me"`. -/
theorem C4_encoded_keys_roundtrip_witness :
    (∃ st' cfg, WithChoriaConfig sampleTLS "linux" noEnv
        (sampleSettings [deadbeefSigner, deadbeefSigner] "me" false) emptyState
          = Outcome.ret st' none ∧
      st'.conf = some cfg ∧ cfg.TrustedTokenSigners = [deadbeefKey, deadbeefKey]) ∧
    ∀ k ∈ [deadbeefKey, deadbeefKey], hex.DecodeString (hex.EncodeToString k) = (k, none) :=
  C4_encoded_keys_roundtrip sampleTLS "linux" noEnv
    (sampleSettings [deadbeefSigner, deadbeefSigner] "me" false) emptyState
    [deadbeefKey, deadbeefKey] (by decide) (by decide) (by decide)

/-- C5: with a non-empty explicit identity and a signer list whose entries are all
valid, the step of `WithChoriaConfig` returns no error and the resulting `Identity`
is that string, for every server flag, host OS and environment. -/
theorem C5_explicit_identity_verbatim {R T G L : Type} (tlsConfig : Option (Settings R) → T)
    (goos : String) (lookupEnv : String → Option String) (c : Settings R)
    (st : ChoriaSecurity T G L)
    (hid : c.Choria.ChoriaSecurityIdentity ≠ "")
    (hvalid : ∀ p ∈ c.Choria.ChoriaSecurityTrustedSigners, validSigner p) :
    ∃ st' cfg, WithChoriaConfig tlsConfig goos lookupEnv c st = Outcome.ret st' none ∧
      st'.conf = some cfg ∧ cfg.Identity = c.Choria.ChoriaSecurityIdentity :=
  ⟨_, _, WithChoriaConfig_ok tlsConfig goos lookupEnv c st _ _
      (decodeSigners_valid _ [] hvalid)
      (resolveIdentity_explicit goos lookupEnv _ c.InitiatedByServer hid), rfl, rfl⟩

/-- C5 at identity `"rip.mcollective"`, server flag set, on Windows, with the user
variable set to another value. -/
theorem C5_explicit_identity_verbatim_witness :
    ∃ st' cfg, WithChoriaConfig sampleTLS "windows" (oneEnv "USERNAME" "bob")
        (sampleSettings [deadbeefSigner] "rip.mcollective" true) emptyState
          = Outcome.ret st' none ∧
      st'.conf = some cfg ∧ cfg.Identity = "rip.mcollective" :=
  C5_explicit_identity_verbatim sampleTLS "windows" (oneEnv "USERNAME" "bob")
    (sampleSettings [deadbeefSigner] "rip.mcollective" true) emptyState
    (by decide) (by decide)

/-- C6: with no explicit identity, the server flag false and a signer list whose
entries are all valid, when the user environment variable is absent the step of
`WithChoriaConfig` returns the identity error, whose text names the variable looked
up: `USERNAME` when the host OS is `windows`, `USER` on every other host OS. -/
theorem C6_identity_unresolved {R T G L : Type} (tlsConfig : Option (Settings R) → T)
    (goos : String) (lookupEnv : String → Option String) (c : Settings R)
    (st : ChoriaSecurity T G L)
    (hid : c.Choria.ChoriaSecurityIdentity = "")
    (hserver : c.InitiatedByServer = false)
    (hvalid : ∀ p ∈ c.Choria.ChoriaSecurityTrustedSigners, validSigner p)
    (henv : lookupEnv (userEnvVar goos) = none) :
    WithChoriaConfig tlsConfig goos lookupEnv c st
        = Outcome.ret st (some (Err.noIdentity (userEnvVar goos))) ∧
      (Err.noIdentity (userEnvVar goos)).message
        = "could not determine client identity, ensure " ++ userEnvVar goos ++
            " environment variable is set" ∧
      (goos = "windows" → userEnvVar goos = "USERNAME") ∧
      (goos ≠ "windows" → userEnvVar goos = "USER") := by
  refine ⟨?_, rfl, ?_, ?_⟩
  · apply WithChoriaConfig_identityError tlsConfig goos lookupEnv c st _ _
      (decodeSigners_valid _ [] hvalid)
    rw [hid, hserver, resolveIdentity_client, henv]
  · intro h
    simp [userEnvVar, h]
  · intro h
    simp [userEnvVar, h]

/-- C6 on Linux with an empty environment: the error names `USER`. -/
theorem C6_identity_unresolved_witness :
    WithChoriaConfig sampleTLS "linux" noEnv (sampleSettings [deadbeefSigner] "" false) emptyState
        = Outcome.ret emptyState (some (Err.noIdentity (userEnvVar "linux"))) ∧
      (Err.noIdentity (userEnvVar "linux")).message
        = "could not determine client identity, ensure " ++ userEnvVar "linux" ++
            " environment variable is set" ∧
      ("linux" = "windows" → userEnvVar "linux" = "USERNAME") ∧
      ("linux" ≠ "windows" → userEnvVar "linux" = "USER") :=
  C6_identity_unresolved sampleTLS "linux" noEnv (sampleSettings [deadbeefSigner] "" false)
    emptyState rfl rfl (by decide) rfl

/-- C7: with no explicit identity, the server flag false and a signer list whose
entries are all valid, when the user environment variable of the host OS
(`USERNAME` on `windows`, `USER` elsewhere) is present with value `v`, the step of
`WithChoriaConfig` returns no error and the resulting `Identity` is `v`. -/
theorem C7_identity_from_environment {R T G L : Type} (tlsConfig : Option (Settings R) → T)
    (goos : String) (lookupEnv : String → Option String) (c : Settings R)
    (st : ChoriaSecurity T G L) (v : String)
    (hid : c.Choria.ChoriaSecurityIdentity = "")
    (hserver : c.InitiatedByServer = false)
    (hvalid : ∀ p ∈ c.Choria.ChoriaSecurityTrustedSigners, validSigner p)
    (henv : lookupEnv (if goos = "windows" then "USERNAME" else "USER") = some v) :
    ∃ st' cfg, WithChoriaConfig tlsConfig goos lookupEnv c st = Outcome.ret st' none ∧
      st'.conf = some cfg ∧ cfg.Identity = v := by
  refine ⟨_, _, WithChoriaConfig_ok tlsConfig goos lookupEnv c st _ v
      (decodeSigners_valid _ [] hvalid) ?_, rfl, rfl⟩
  rw [hid, hserver, resolveIdentity_client]
  unfold userEnvVar
  rw [henv]

/-- C7 at `USER=alice` on Linux. -/
theorem C7_identity_from_environment_witness :
    ∃ st' cfg, WithChoriaConfig sampleTLS "linux" (oneEnv "USER" "alice")
        (sampleSettings [deadbeefSigner] "" false) emptyState = Outcome.ret st' none ∧
      st'.conf = some cfg ∧ cfg.Identity = "alice" :=
  C7_identity_from_environment sampleTLS "linux" (oneEnv "USER" "alice")
    (sampleSettings [deadbeefSigner] "" false) emptyState "alice" rfl rfl (by decide)
    (by decide)

/-- C8: with no explicit identity, the server flag true and a signer list whose
entries are all valid, the step of `WithChoriaConfig` returns no error and the
resulting `Identity` is the empty string, for every host OS and every environment,
the user variable being absent or set. -/
theorem C8_server_identity_deferred {R T G L : Type} (tlsConfig : Option (Settings R) → T)
    (goos : String) (lookupEnv : String → Option String) (c : Settings R)
    (st : ChoriaSecurity T G L)
    (hid : c.Choria.ChoriaSecurityIdentity = "")
    (hserver : c.InitiatedByServer = true)
    (hvalid : ∀ p ∈ c.Choria.ChoriaSecurityTrustedSigners, validSigner p) :
    ∃ st' cfg, WithChoriaConfig tlsConfig goos lookupEnv c st = Outcome.ret st' none ∧
      st'.conf = some cfg ∧ cfg.Identity = "" := by
  refine ⟨_, _, WithChoriaConfig_ok tlsConfig goos lookupEnv c st _ ""
      (decodeSigners_valid _ [] hvalid) ?_, rfl, rfl⟩
  rw [hid, hserver, resolveIdentity_server]

/-- C8 on Linux with `USER=alice` set: the identity stays empty. -/
theorem C8_server_identity_deferred_witness :
    ∃ st' cfg, WithChoriaConfig sampleTLS "linux" (oneEnv "USER" "alice")
        (sampleSettings [deadbeefSigner] "" true) emptyState = Outcome.ret st' none ∧
      st'.conf = some cfg ∧ cfg.Identity = "" :=
  C8_server_identity_deferred sampleTLS "linux" (oneEnv "USER" "alice")
    (sampleSettings [deadbeefSigner] "" true) emptyState rfl rfl (by decide)

/-- C9, as stated, fails: in the server role with no explicit identity and an empty
environment the step of `WithChoriaConfig` returns no error and stores an empty
`Identity`; and `WithConfig` adopts a configuration whose `Identity` is empty
without error. -/
theorem C9_empty_identity_counterexample :
    (WithChoriaConfig sampleTLS "linux" noEnv (sampleSettings [deadbeefSigner] "" true)
        emptyState = Outcome.ret (sampleBuilt [deadbeefKey] "") none ∧
      (sampleBuilt [deadbeefKey] "").conf.map (fun cfg => cfg.Identity) = some "") ∧
    (WithConfig sampleTLS (sampleBuilt [deadbeefKey] "").conf emptyState
        = Outcome.ret (sampleBuilt [deadbeefKey] "") none) := by
  decide

/-- C9, amended: when the step of `WithChoriaConfig` returns no error, the resulting
`Identity` is empty exactly when the settings carry no explicit identity and either
the server flag is true or the user environment variable is set to the empty
string, and is non-empty in every other case; the step of `WithConfig` on a
non-nil configuration returns no error and keeps the `Identity` it was given. -/
theorem C9_identity_empty_iff {R T G L : Type} (tlsConfig : Option (Settings R) → T)
    (goos : String) (lookupEnv : String → Option String) (c : Settings R)
    (st st' : ChoriaSecurity T G L) (conf : Config T G)
    (h : WithChoriaConfig tlsConfig goos lookupEnv c st = Outcome.ret st' none) :
    (∃ cfg, st'.conf = some cfg ∧
      (cfg.Identity = "" ↔
        c.Choria.ChoriaSecurityIdentity = "" ∧
          (c.InitiatedByServer = true ∨ lookupEnv (userEnvVar goos) = some ""))) ∧
    (∃ st2 cfg, WithConfig tlsConfig (some conf) st = Outcome.ret st2 none ∧
      st2.conf = some cfg ∧ cfg.Identity = conf.Identity) := by
  constructor
  · obtain ⟨signers, identity, -, hi, rfl⟩ :=
      WithChoriaConfig_ok_inv tlsConfig goos lookupEnv c st st' h
    refine ⟨_, rfl, ?_⟩
    show identity = "" ↔ _
    by_cases hid : c.Choria.ChoriaSecurityIdentity = ""
    · rw [hid] at hi
      cases hs : c.InitiatedByServer with
      | true =>
        rw [hs, resolveIdentity_server] at hi
        cases hi
        simp [hid]
      | false =>
        rw [hs, resolveIdentity_client] at hi
        cases hl : lookupEnv (userEnvVar goos) with
        | none => rw [hl] at hi; cases hi
        | some u =>
          rw [hl] at hi
          cases hi
          simp [hid]
    · rw [resolveIdentity_explicit goos lookupEnv _ _ hid] at hi
      cases hi
      simp [hid]
  · cases htls : conf.TLSConfig with
    | none => exact ⟨_, _, WithConfig_noTLS tlsConfig conf st htls, rfl, rfl⟩
    | some t => exact ⟨_, _, WithConfig_hasTLS tlsConfig conf st t htls, rfl, rfl⟩

/-- C9, amended, at `USER=alice` on Linux in the client role: the identity stored is
`"alice"`, which is not empty. -/
theorem C9_identity_empty_iff_witness :
    (∃ cfg, (sampleBuilt [deadbeefKey] "alice").conf = some cfg ∧
      (cfg.Identity = "" ↔
        (sampleSettings [deadbeefSigner] "" false).Choria.ChoriaSecurityIdentity = "" ∧
          ((sampleSettings [deadbeefSigner] "" false).InitiatedByServer = true ∨
            oneEnv "USER" "alice" (userEnvVar "linux") = some ""))) ∧
    (∃ st2 cfg, WithConfig sampleTLS (some
          { TLSConfig := none
            TrustedTokenSigners := []
            Identity := "bob"
            TokenFile := ""
            SeedFile := ""
            RemoteSignerURL := ""
            RemoteSignerTokenFile := ""
            RemoteSigner := none }) emptyState = Outcome.ret st2 none ∧
      st2.conf = some cfg ∧ cfg.Identity = "bob") :=
  C9_identity_empty_iff sampleTLS "linux" (oneEnv "USER" "alice")
    (sampleSettings [deadbeefSigner] "" false) emptyState (sampleBuilt [deadbeefKey] "alice")
    { TLSConfig := none
      TrustedTokenSigners := []
      Identity := "bob"
      TokenFile := ""
      SeedFile := ""
      RemoteSignerURL := ""
      RemoteSignerTokenFile := ""
      RemoteSigner := none }
    (by decide)

/-- C10: whenever the step of `WithChoriaConfig` returns an error (invalid key
encoding, invalid key size or unresolved identity), the state it leaves is the state
it was given: the previous configuration and the logger are unchanged, so no key
decoded before the failure is stored in it. -/
theorem C10_failure_leaves_state {R T G L : Type} (tlsConfig : Option (Settings R) → T)
    (goos : String) (lookupEnv : String → Option String) (c : Settings R)
    (st st' : ChoriaSecurity T G L) (e : Err)
    (h : WithChoriaConfig tlsConfig goos lookupEnv c st = Outcome.ret st' (some e)) :
    st' = st ∧ st'.conf = st.conf ∧ st'.log = st.log := by
  obtain ⟨rfl, -⟩ := WithChoriaConfig_err_inv tlsConfig goos lookupEnv c st st' e h
  exact ⟨rfl, rfl, rfl⟩

/-- C10 at the signers `[deadbeefSigner, "zz"]`, applied to a state that already
holds a configuration with identity `"old"` and no key: the step fails and leaves
that state, the key of `deadbeefSigner` is not stored. -/
theorem C10_failure_leaves_state_witness :
    WithChoriaConfig sampleTLS "linux" noEnv (sampleSettings [deadbeefSigner, "zz"] "" false)
        (sampleBuilt [] "old")
      = Outcome.ret (sampleBuilt [] "old")
          (some (Err.invalidKey "zz" (hex.Error.InvalidByteError 122))) ∧
    (sampleBuilt [] "old" = sampleBuilt [] "old" ∧
      (sampleBuilt [] "old").conf = (sampleBuilt [] "old").conf ∧
      (sampleBuilt [] "old").log = (sampleBuilt [] "old").log) :=
  ⟨by decide,
   C10_failure_leaves_state sampleTLS "linux" noEnv
    (sampleSettings [deadbeefSigner, "zz"] "" false) (sampleBuilt [] "old")
    (sampleBuilt [] "old") (Err.invalidKey "zz" (hex.Error.InvalidByteError 122)) (by decide)⟩

/-- C11: for every caller-constructed configuration `c`, the step of `WithConfig`
on (a pointer to) `c` returns no error, leaves the logger as it was and makes the
in-progress configuration equal to `c` in every field but the TLS policy; when `c`
has no TLS policy the resulting one is the default `tlsConfig none` (set), and when
`c` has a TLS policy the resulting configuration is `c` itself. -/
theorem C11_WithConfig_adopts {R T G L : Type} (tlsConfig : Option (Settings R) → T)
    (c : Config T G) (st : ChoriaSecurity T G L) :
    ∃ st' cfg, WithConfig tlsConfig (some c) st = Outcome.ret st' none ∧
      st'.conf = some cfg ∧ st'.log = st.log ∧
      cfg.TrustedTokenSigners = c.TrustedTokenSigners ∧ cfg.Identity = c.Identity ∧
      cfg.TokenFile = c.TokenFile ∧ cfg.SeedFile = c.SeedFile ∧
      cfg.RemoteSignerURL = c.RemoteSignerURL ∧
      cfg.RemoteSignerTokenFile = c.RemoteSignerTokenFile ∧
      cfg.RemoteSigner = c.RemoteSigner ∧
      (c.TLSConfig = none → cfg.TLSConfig = some (tlsConfig none)) ∧
      (c.TLSConfig ≠ none → cfg = c) := by
  cases htls : c.TLSConfig with
  | none =>
    exact ⟨_, _, WithConfig_noTLS tlsConfig c st htls, rfl, rfl, rfl, rfl, rfl, rfl, rfl, rfl,
      rfl, fun _ => rfl, fun h => absurd rfl h⟩
  | some t =>
    exact ⟨_, _, WithConfig_hasTLS tlsConfig c st t htls, rfl, rfl, rfl, rfl, rfl, rfl, rfl, rfl,
      rfl, fun h => (by cases h), fun _ => rfl⟩

/-- C12: when the step of `WithChoriaConfig` returns no error it replaces the
in-progress configuration: the new one has the TLS policy built from the settings,
`RemoteSignerURL` and `RemoteSignerTokenFile` copied from the settings, and
`TokenFile`, `SeedFile` and `RemoteSigner` unset; the logger is unchanged; and
applied to any other state the step stores the very same configuration, so the
result depends on the settings, host OS and environment only. -/
theorem C12_WithChoriaConfig_replaces {R T G L : Type} (tlsConfig : Option (Settings R) → T)
    (goos : String) (lookupEnv : String → Option String) (c : Settings R)
    (st st' : ChoriaSecurity T G L)
    (h : WithChoriaConfig tlsConfig goos lookupEnv c st = Outcome.ret st' none) :
    ∃ cfg, st'.conf = some cfg ∧ st'.log = st.log ∧
      cfg.TLSConfig = some (tlsConfig (some c)) ∧
      cfg.RemoteSignerURL = c.Choria.RemoteSignerURL ∧
      cfg.RemoteSignerTokenFile = c.Choria.RemoteSignerTokenFile ∧
      cfg.TokenFile = "" ∧ cfg.SeedFile = "" ∧ cfg.RemoteSigner = none ∧
      ∀ other : ChoriaSecurity T G L,
        WithChoriaConfig tlsConfig goos lookupEnv c other
          = Outcome.ret { conf := some cfg, log := other.log } none := by
  obtain ⟨signers, identity, hd, hi, rfl⟩ :=
    WithChoriaConfig_ok_inv tlsConfig goos lookupEnv c st st' h
  exact ⟨_, rfl, rfl, rfl, rfl, rfl, rfl, rfl, rfl,
    fun other => WithChoriaConfig_ok tlsConfig goos lookupEnv c other signers identity hd hi⟩

/-- C12 on a state whose configuration has identity `"bob"` and token file `"tok"`:
the step stores the configuration built from the settings alone. -/
theorem C12_WithChoriaConfig_replaces_witness :
    ∃ cfg, (sampleBuilt [deadbeefKey] "me").conf = some cfg ∧
      (sampleBuilt [deadbeefKey] "me").log
        = ({ conf := some (sampleConfig none), log := none } : ChoriaSecurity Unit Unit Unit).log ∧
      cfg.TLSConfig = some (sampleTLS (some (sampleSettings [deadbeefSigner] "me" false))) ∧
      cfg.RemoteSignerURL = (sampleSettings [deadbeefSigner] "me" false).Choria.RemoteSignerURL ∧
      cfg.RemoteSignerTokenFile
        = (sampleSettings [deadbeefSigner] "me" false).Choria.RemoteSignerTokenFile ∧
      cfg.TokenFile = "" ∧ cfg.SeedFile = "" ∧ cfg.RemoteSigner = none ∧
      ∀ other : ChoriaSecurity Unit Unit Unit,
        WithChoriaConfig sampleTLS "linux" noEnv (sampleSettings [deadbeefSigner] "me" false) other
          = Outcome.ret { conf := some cfg, log := other.log } none :=
  C12_WithChoriaConfig_replaces sampleTLS "linux" noEnv
    (sampleSettings [deadbeefSigner] "me" false)
    { conf := some (sampleConfig none), log := none } (sampleBuilt [deadbeefKey] "me")
    (by decide)

/-- C13: on a state that holds a configuration `conf`, each field-level override
returns no error and changes one field only: `WithTokenFile f` sets `TokenFile`,
`WithSeedFile f` sets `SeedFile`, `WithSigner x` sets `RemoteSigner`; every other
field of the configuration and the logger are as before. -/
theorem C13_setters_change_one_field {T G L : Type} (f : String) (x : Option G)
    (st : ChoriaSecurity T G L) (conf : Config T G) (h : st.conf = some conf) :
    WithTokenFile f st
        = Outcome.ret { conf := some { conf with TokenFile := f }, log := st.log } none ∧
    WithSeedFile f st
        = Outcome.ret { conf := some { conf with SeedFile := f }, log := st.log } none ∧
    WithSigner x st
        = Outcome.ret { conf := some { conf with RemoteSigner := x }, log := st.log } none := by
  simp [WithTokenFile, WithSeedFile, WithSigner, h]

/-- C13 on the state holding `sampleConfig (some ())`, with argument `"f"` and a
signer. -/
theorem C13_setters_change_one_field_witness :
    WithTokenFile "f" ({ conf := some (sampleConfig (some ())), log := none } :
        ChoriaSecurity Unit Unit Unit)
        = Outcome.ret { conf := some { sampleConfig (some ()) with TokenFile := "f" },
                        log := none } none ∧
    WithSeedFile "f" ({ conf := some (sampleConfig (some ())), log := none } :
        ChoriaSecurity Unit Unit Unit)
        = Outcome.ret { conf := some { sampleConfig (some ()) with SeedFile := "f" },
                        log := none } none ∧
    WithSigner (some ()) ({ conf := some (sampleConfig (some ())), log := none } :
        ChoriaSecurity Unit Unit Unit)
        = Outcome.ret { conf := some { sampleConfig (some ()) with RemoteSigner := some () },
                        log := none } none :=
  C13_setters_change_one_field "f" (some ())
    { conf := some (sampleConfig (some ())), log := none } (sampleConfig (some ())) rfl

/-! ## `WithLog` on a state that holds a configuration -/

theorem WithLog_noTLS {R T G L : Type} (tlsConfig : Option (Settings R) → T)
    (withFields : L → L) (entry : L) (st : ChoriaSecurity T G L) (conf : Config T G)
    (h : st.conf = some conf) (htls : conf.TLSConfig = none) :
    WithLog tlsConfig withFields (some entry) st
      = Outcome.ret
          { conf := some { conf with TLSConfig := some (tlsConfig none) }
            log := some (withFields entry) } none := by
  simp [WithLog, h, htls]

theorem WithLog_hasTLS {R T G L : Type} (tlsConfig : Option (Settings R) → T)
    (withFields : L → L) (entry : L) (st : ChoriaSecurity T G L) (conf : Config T G) (t : T)
    (h : st.conf = some conf) (htls : conf.TLSConfig = some t) :
    WithLog tlsConfig withFields (some entry) st
      = Outcome.ret { conf := some conf, log := some (withFields entry) } none := by
  simp [WithLog, h, htls]

/-- C14, as stated, fails: on the state in which no settings or config step has run
(`conf` is nil) the step of `WithLog` dereferences the nil configuration and panics
instead of completing. -/
theorem C14_WithLog_nil_conf_counterexample :
    WithLog sampleTLS (fun l : Unit => l) (some ()) emptyState = Outcome.nilPanic := by
  decide

/-- C14, amended: on every state that already holds a configuration `conf`, the step
of `WithLog` with a logger returns no error, stores the logger with its fields, and
afterwards the TLS policy is set: when `conf` had none the default `tlsConfig none` is
stored and no other field of the configuration changes, and when `conf` had one the
configuration is left as it was. -/
theorem C14_WithLog_sets_TLS {R T G L : Type} (tlsConfig : Option (Settings R) → T)
    (withFields : L → L) (entry : L) (st : ChoriaSecurity T G L) (conf : Config T G)
    (h : st.conf = some conf) :
    ∃ st' cfg, WithLog tlsConfig withFields (some entry) st = Outcome.ret st' none ∧
      st'.conf = some cfg ∧ st'.log = some (withFields entry) ∧
      cfg.TLSConfig ≠ none ∧
      (conf.TLSConfig = none → cfg = { conf with TLSConfig := some (tlsConfig none) }) ∧
      (conf.TLSConfig ≠ none → cfg = conf) := by
  cases htls : conf.TLSConfig with
  | none =>
    exact ⟨_, _, WithLog_noTLS tlsConfig withFields entry st conf h htls, rfl, rfl,
      (by simp), fun _ => rfl, fun hne => absurd rfl hne⟩
  | some t =>
    exact ⟨_, _, WithLog_hasTLS tlsConfig withFields entry st conf t h htls, rfl, rfl,
      (by simp [htls]), fun hn => (by cases hn), fun _ => rfl⟩

/-- C14, amended, on the state holding `sampleConfig none`: the default TLS policy
is stored. -/
theorem C14_WithLog_sets_TLS_witness :
    ∃ st' cfg, WithLog sampleTLS (fun l : Unit => l) (some ())
        ({ conf := some (sampleConfig none), log := none } : ChoriaSecurity Unit Unit Unit)
          = Outcome.ret st' none ∧
      st'.conf = some cfg ∧ st'.log = some () ∧
      cfg.TLSConfig ≠ none ∧
      ((sampleConfig none).TLSConfig = none →
        cfg = { sampleConfig none with TLSConfig := some (sampleTLS none) }) ∧
      ((sampleConfig none).TLSConfig ≠ none → cfg = sampleConfig none) :=
  C14_WithLog_sets_TLS sampleTLS (fun l : Unit => l) ()
    { conf := some (sampleConfig none), log := none } (sampleConfig none) rfl

/-- C15, as stated, fails: on the state in which no settings or config step has
established a configuration (`conf` is nil) each field setter dereferences the nil
configuration and panics instead of returning. -/
theorem C15_setters_nil_conf_counterexample :
    WithTokenFile "f" emptyState = Outcome.nilPanic ∧
    WithSeedFile "f" emptyState = Outcome.nilPanic ∧
    WithSigner (some ()) emptyState = Outcome.nilPanic := by
  decide

/-- C15, amended: on every state that holds a configuration, and for every
argument, each of `WithTokenFile`, `WithSeedFile` and `WithSigner` completes and
returns no error. -/
theorem C15_setters_return_no_error {T G L : Type} (f : String) (x : Option G)
    (st : ChoriaSecurity T G L) (h : st.conf ≠ none) :
    (∃ st', WithTokenFile f st = Outcome.ret st' none) ∧
    (∃ st', WithSeedFile f st = Outcome.ret st' none) ∧
    (∃ st', WithSigner x st = Outcome.ret st' none) := by
  obtain ⟨conf, hc⟩ := Option.ne_none_iff_exists'.mp h
  exact ⟨⟨{ conf := some { conf with TokenFile := f }, log := st.log },
      by simp [WithTokenFile, hc]⟩,
    ⟨{ conf := some { conf with SeedFile := f }, log := st.log },
      by simp [WithSeedFile, hc]⟩,
    ⟨{ conf := some { conf with RemoteSigner := x }, log := st.log },
      by simp [WithSigner, hc]⟩⟩

/-- C15, amended, on the state a `WithChoriaConfig` step left. -/
theorem C15_setters_return_no_error_witness :
    (∃ st', WithTokenFile "" (sampleBuilt [] "me") = Outcome.ret st' none) ∧
    (∃ st', WithSeedFile "" (sampleBuilt [] "me") = Outcome.ret st' none) ∧
    (∃ st', WithSigner none (sampleBuilt [] "me") = Outcome.ret st' none) :=
  C15_setters_return_no_error "" none (sampleBuilt [] "me") (by decide)

/-! ## The TLS policy along a sequence of steps -/

section Sequences

variable {R T G L : Type} (tlsConfig : Option (Settings R) → T) (goos : String)
  (lookupEnv : String → Option String) (withFields : L → L)

theorem runSteps_cons_inv (step : Step R T G L) (rest : List (Step R T G L))
    (st st' : ChoriaSecurity T G L)
    (h : runSteps tlsConfig goos lookupEnv withFields (step :: rest) st = Outcome.ret st' none) :
    ∃ mid, step.run tlsConfig goos lookupEnv withFields st = Outcome.ret mid none ∧
      runSteps tlsConfig goos lookupEnv withFields rest mid = Outcome.ret st' none := by
  rw [runSteps] at h
  cases hrun : step.run tlsConfig goos lookupEnv withFields st with
  | nilPanic =>
    rw [hrun] at h
    cases h
  | ret s1 err =>
    rw [hrun] at h
    cases err with
    | some e => cases h
    | none => exact ⟨s1, rfl, h⟩

theorem runSteps_append_inv (pre post : List (Step R T G L)) (st st' : ChoriaSecurity T G L)
    (h : runSteps tlsConfig goos lookupEnv withFields (pre ++ post) st = Outcome.ret st' none) :
    ∃ mid, runSteps tlsConfig goos lookupEnv withFields pre st = Outcome.ret mid none ∧
      runSteps tlsConfig goos lookupEnv withFields post mid = Outcome.ret st' none := by
  induction pre generalizing st with
  | nil => exact ⟨st, rfl, h⟩
  | cons step rest ih =>
    obtain ⟨s1, h1, h2⟩ :=
      runSteps_cons_inv tlsConfig goos lookupEnv withFields step (rest ++ post) st st' h
    obtain ⟨mid, h3, h4⟩ := ih s1 h2
    refine ⟨mid, ?_, h4⟩
    rw [runSteps, h1]
    exact h3

/-- A setter or `WithLog` on a state without configuration does not return. -/
theorem keepsConf_run_nil (step : Step R T G L) (st st' : ChoriaSecurity T G L)
    (hk : step.keepsConf = true) (hn : st.conf = none) :
    step.run tlsConfig goos lookupEnv withFields st ≠ Outcome.ret st' none := by
  intro h
  cases step with
  | choriaConfig c => cases hk
  | config c => cases hk
  | tokenFile f => simp [Step.run, WithTokenFile, hn] at h
  | seedFile f => simp [Step.run, WithSeedFile, hn] at h
  | signer g => simp [Step.run, WithSigner, hn] at h
  | log l =>
    cases l with
    | none => simp [Step.run, WithLog] at h
    | some entry => simp [Step.run, WithLog, hn] at h

/-- A setter or `WithLog` keeps a TLS policy that is set. -/
theorem keepsConf_run_TLS (step : Step R T G L) (st st' : ChoriaSecurity T G L)
    (cfg : Config T G) (t : T) (hk : step.keepsConf = true) (hc : st.conf = some cfg)
    (ht : cfg.TLSConfig = some t)
    (h : step.run tlsConfig goos lookupEnv withFields st = Outcome.ret st' none) :
    ∃ cfg', st'.conf = some cfg' ∧ cfg'.TLSConfig = some t := by
  cases step with
  | choriaConfig c => cases hk
  | config c => cases hk
  | tokenFile f =>
    simp [Step.run, WithTokenFile, hc] at h
    subst h
    exact ⟨_, rfl, ht⟩
  | seedFile f =>
    simp [Step.run, WithSeedFile, hc] at h
    subst h
    exact ⟨_, rfl, ht⟩
  | signer g =>
    simp [Step.run, WithSigner, hc] at h
    subst h
    exact ⟨_, rfl, ht⟩
  | log l =>
    cases l with
    | none => simp [Step.run, WithLog] at h
    | some entry =>
      simp only [Step.run] at h
      rw [WithLog_hasTLS tlsConfig withFields entry st cfg t hc ht] at h
      cases h
      exact ⟨cfg, rfl, ht⟩

theorem keepsConf_runSteps_TLS (steps : List (Step R T G L)) (st st' : ChoriaSecurity T G L)
    (cfg : Config T G) (t : T) (hk : ∀ s ∈ steps, s.keepsConf = true) (hc : st.conf = some cfg)
    (ht : cfg.TLSConfig = some t)
    (h : runSteps tlsConfig goos lookupEnv withFields steps st = Outcome.ret st' none) :
    ∃ cfg', st'.conf = some cfg' ∧ cfg'.TLSConfig = some t := by
  induction steps generalizing st cfg with
  | nil =>
    simp [runSteps] at h
    subst h
    exact ⟨cfg, hc, ht⟩
  | cons step rest ih =>
    obtain ⟨mid, h1, h2⟩ :=
      runSteps_cons_inv tlsConfig goos lookupEnv withFields step rest st st' h
    obtain ⟨cfg1, hc1, ht1⟩ := keepsConf_run_TLS tlsConfig goos lookupEnv withFields step st mid
      cfg t (hk step (List.mem_cons_self _ _)) hc ht h1
    exact ih mid cfg1 (fun s hs => hk s (List.mem_cons_of_mem _ hs)) hc1 ht1 h2

/-- A setter keeps a configuration without TLS policy without one. -/
theorem setter_run_noTLS (step : Step R T G L) (st st' : ChoriaSecurity T G L)
    (cfg : Config T G) (hk : step.keepsConf = true) (hl : ∀ l, step ≠ Step.log l)
    (hc : st.conf = some cfg) (ht : cfg.TLSConfig = none)
    (h : step.run tlsConfig goos lookupEnv withFields st = Outcome.ret st' none) :
    ∃ cfg', st'.conf = some cfg' ∧ cfg'.TLSConfig = none := by
  cases step with
  | choriaConfig c => cases hk
  | config c => cases hk
  | tokenFile f =>
    simp [Step.run, WithTokenFile, hc] at h
    subst h
    exact ⟨_, rfl, ht⟩
  | seedFile f =>
    simp [Step.run, WithSeedFile, hc] at h
    subst h
    exact ⟨_, rfl, ht⟩
  | signer g =>
    simp [Step.run, WithSigner, hc] at h
    subst h
    exact ⟨_, rfl, ht⟩
  | log l => exact absurd rfl (hl l)

/-- From a configuration without TLS policy, setters and `WithLog` steps with at
least one `WithLog` among them end with the default policy. -/
theorem log_runSteps_default (steps : List (Step R T G L)) (st st' : ChoriaSecurity T G L)
    (cfg : Config T G) (hk : ∀ s ∈ steps, s.keepsConf = true)
    (hlog : ∃ l, Step.log l ∈ steps) (hc : st.conf = some cfg) (ht : cfg.TLSConfig = none)
    (h : runSteps tlsConfig goos lookupEnv withFields steps st = Outcome.ret st' none) :
    ∃ cfg', st'.conf = some cfg' ∧ cfg'.TLSConfig = some (tlsConfig none) := by
  induction steps generalizing st cfg with
  | nil =>
    obtain ⟨l, hl⟩ := hlog
    cases hl
  | cons step rest ih =>
    obtain ⟨mid, h1, h2⟩ :=
      runSteps_cons_inv tlsConfig goos lookupEnv withFields step rest st st' h
    have hkrest : ∀ s ∈ rest, s.keepsConf = true := fun s hs => hk s (List.mem_cons_of_mem _ hs)
    by_cases hislog : ∃ l, step = Step.log l
    · obtain ⟨l, rfl⟩ := hislog
      cases l with
      | none => simp [Step.run, WithLog] at h1
      | some entry =>
        simp only [Step.run] at h1
        rw [WithLog_noTLS tlsConfig withFields entry st cfg hc ht] at h1
        cases h1
        exact keepsConf_runSteps_TLS tlsConfig goos lookupEnv withFields rest _ st' _
          (tlsConfig none) hkrest rfl rfl h2
    · have hl : ∀ l, step ≠ Step.log l := fun l hl => hislog ⟨l, hl⟩
      obtain ⟨cfg1, hc1, ht1⟩ := setter_run_noTLS tlsConfig goos lookupEnv withFields step st mid
        cfg (hk step (List.mem_cons_self _ _)) hl hc ht h1
      refine ih mid cfg1 hkrest ?_ hc1 ht1 h2
      obtain ⟨l, hmem⟩ := hlog
      rcases List.mem_cons.mp hmem with heq | hmem
      · exact absurd heq.symm (hl l)
      · exact ⟨l, hmem⟩

/-- Every sequence is made of setters and `WithLog` steps only, or has a last
`WithChoriaConfig` or `WithConfig` step. -/
theorem last_replacing_step (steps : List (Step R T G L)) :
    (∀ s ∈ steps, s.keepsConf = true) ∨
      ∃ pre e post, steps = pre ++ e :: post ∧ e.keepsConf = false ∧
        ∀ s ∈ post, s.keepsConf = true := by
  induction steps with
  | nil => exact Or.inl (fun s hs => by cases hs)
  | cons step rest ih =>
    rcases ih with hall | ⟨pre, e, post, rfl, he, hpost⟩
    · by_cases hs : step.keepsConf = true
      · left
        intro s hmem
        rcases List.mem_cons.mp hmem with rfl | hmem
        · exact hs
        · exact hall s hmem
      · exact Or.inr ⟨[], step, rest, rfl, by simpa using hs, hall⟩
    · exact Or.inr ⟨step :: pre, e, post, rfl, he, hpost⟩

/-- What a `WithChoriaConfig` or `WithConfig` step that returns no error leaves as
TLS policy. -/
theorem replacing_run_TLS (e : Step R T G L) (st st' : ChoriaSecurity T G L)
    (he : e.keepsConf = false)
    (h : e.run tlsConfig goos lookupEnv withFields st = Outcome.ret st' none) :
    ∃ cfg t, st'.conf = some cfg ∧ cfg.TLSConfig = some t ∧
      ((∃ c, e = Step.choriaConfig c ∧ t = tlsConfig (some c)) ∨
        (∃ conf, e = Step.config (some conf) ∧ conf.TLSConfig = some t) ∨
        (∃ conf, e = Step.config (some conf) ∧ conf.TLSConfig = none ∧ t = tlsConfig none)) := by
  cases e with
  | tokenFile f => cases he
  | seedFile f => cases he
  | signer g => cases he
  | log l => cases he
  | choriaConfig c =>
    obtain ⟨signers, identity, -, -, rfl⟩ :=
      WithChoriaConfig_ok_inv tlsConfig goos lookupEnv c st st' h
    exact ⟨_, _, rfl, rfl, Or.inl ⟨c, rfl, rfl⟩⟩
  | config c =>
    cases c with
    | none => simp [Step.run, WithConfig] at h
    | some conf =>
      simp only [Step.run] at h
      cases htls : conf.TLSConfig with
      | none =>
        rw [WithConfig_noTLS tlsConfig conf st htls] at h
        cases h
        exact ⟨_, _, rfl, rfl, Or.inr (Or.inr ⟨conf, rfl, htls, rfl⟩)⟩
      | some t =>
        rw [WithConfig_hasTLS tlsConfig conf st t htls] at h
        cases h
        exact ⟨conf, t, rfl, htls, Or.inr (Or.inl ⟨conf, rfl, htls⟩)⟩

end Sequences

/-- C16, as stated, fails: the sequence of no step, applied to the initial state,
completes without error and leaves the initial state, which holds no configuration,
hence no TLS policy. -/
theorem C16_empty_sequence_counterexample :
    runSteps sampleTLS "linux" noEnv (fun l : Unit => l) ([] : List (Step Unit Unit Unit Unit))
        initialState = Outcome.ret initialState none ∧
      (initialState : ChoriaSecurity Unit Unit Unit).conf = none := by
  decide

/-- C16, amended: for every sequence of steps of this module that has at least one
step, is applied in order to the initial state and completes without error, the
resulting configuration exists and its TLS policy is set. The policy is the one of
the last `WithChoriaConfig` or `WithConfig` step `e` of the sequence (only setters
and `WithLog` steps follow it): built from the settings for `WithChoriaConfig`, the
supplied one for `WithConfig` of a configuration that has one, and the synthesized
default `tlsConfig none` for `WithConfig` of a configuration that has none. And
`WithLog` synthesizes the default as well: from any state whose configuration has
no TLS policy, a sequence of setters and `WithLog` steps with at least one `WithLog`
that completes without error ends with the default policy. -/
theorem C16_TLS_set_after_build {R T G L : Type} (tlsConfig : Option (Settings R) → T)
    (goos : String) (lookupEnv : String → Option String) (withFields : L → L)
    (steps : List (Step R T G L)) (st0 st : ChoriaSecurity T G L) :
    (steps ≠ [] →
      runSteps tlsConfig goos lookupEnv withFields steps initialState = Outcome.ret st none →
      ∃ cfg t, st.conf = some cfg ∧ cfg.TLSConfig = some t ∧
        ∃ pre e post, steps = pre ++ e :: post ∧ (∀ s ∈ post, s.keepsConf = true) ∧
          ((∃ c, e = Step.choriaConfig c ∧ t = tlsConfig (some c)) ∨
            (∃ conf, e = Step.config (some conf) ∧ conf.TLSConfig = some t) ∨
            (∃ conf, e = Step.config (some conf) ∧ conf.TLSConfig = none ∧
              t = tlsConfig none))) ∧
    (∀ cfg0, st0.conf = some cfg0 → cfg0.TLSConfig = none →
      (∀ s ∈ steps, s.keepsConf = true) → (∃ l, Step.log l ∈ steps) →
      runSteps tlsConfig goos lookupEnv withFields steps st0 = Outcome.ret st none →
      ∃ cfg, st.conf = some cfg ∧ cfg.TLSConfig = some (tlsConfig none)) := by
  constructor
  · intro hne h
    rcases last_replacing_step steps with hall | ⟨pre, e, post, rfl, he, hpost⟩
    · exfalso
      cases steps with
      | nil => exact hne rfl
      | cons step rest =>
        obtain ⟨mid, h1, -⟩ :=
          runSteps_cons_inv tlsConfig goos lookupEnv withFields step rest initialState st h
        exact keepsConf_run_nil tlsConfig goos lookupEnv withFields step initialState mid
          (hall step (List.mem_cons_self _ _)) rfl h1
    · obtain ⟨mid0, -, h2⟩ :=
        runSteps_append_inv tlsConfig goos lookupEnv withFields pre (e :: post) initialState st h
      obtain ⟨mid, h3, h4⟩ :=
        runSteps_cons_inv tlsConfig goos lookupEnv withFields e post mid0 st h2
      obtain ⟨cfg1, t, hc1, ht1, hprov⟩ :=
        replacing_run_TLS tlsConfig goos lookupEnv withFields e mid0 mid he h3
      obtain ⟨cfg, hc, ht⟩ := keepsConf_runSteps_TLS tlsConfig goos lookupEnv withFields post
        mid st cfg1 t hpost hc1 ht1 h4
      exact ⟨cfg, t, hc, ht, pre, e, post, rfl, hpost, hprov⟩
  · intro cfg0 hc0 ht0 hall hlog h
    exact log_runSteps_default tlsConfig goos lookupEnv withFields steps st0 st cfg0 hall hlog
      hc0 ht0 h

/-- C16, amended, on two sequences. From the initial state, `WithConfig` of a
configuration without TLS policy, `WithTokenFile "t"`, `WithLog`: the resulting
configuration carries a TLS policy that comes from the `WithConfig` step. From a
state whose configuration has no TLS policy, `WithTokenFile "t"`, `WithLog`: the
resulting configuration carries the synthesized default. -/
theorem C16_TLS_set_after_build_witness :
    (∃ cfg t, ({ conf := some { sampleConfig (some ()) with TokenFile := "t" }
                 log := some () } : ChoriaSecurity Unit Unit Unit).conf = some cfg ∧
      cfg.TLSConfig = some t ∧
      ∃ pre e post,
        ([Step.config (some (sampleConfig none)), Step.tokenFile "t", Step.log (some ())] :
          List (Step Unit Unit Unit Unit)) = pre ++ e :: post ∧
        (∀ s ∈ post, s.keepsConf = true) ∧
        ((∃ c, e = Step.choriaConfig c ∧ t = sampleTLS (some c)) ∨
          (∃ conf, e = Step.config (some conf) ∧ conf.TLSConfig = some t) ∨
          (∃ conf, e = Step.config (some conf) ∧ conf.TLSConfig = none ∧
            t = sampleTLS none))) ∧
    (∃ cfg, ({ conf := some { sampleConfig (some ()) with TokenFile := "t" }
               log := some () } : ChoriaSecurity Unit Unit Unit).conf = some cfg ∧
      cfg.TLSConfig = some (sampleTLS none)) :=
  ⟨(C16_TLS_set_after_build sampleTLS "linux" noEnv (fun l : Unit => l)
      [Step.config (some (sampleConfig none)), Step.tokenFile "t", Step.log (some ())]
      emptyState
      { conf := some { sampleConfig (some ()) with TokenFile := "t" }, log := some () }).1
      (by simp) (by decide),
   (C16_TLS_set_after_build sampleTLS "linux" noEnv (fun l : Unit => l)
      [Step.tokenFile "t", Step.log (some ())]
      { conf := some (sampleConfig none), log := none }
      { conf := some { sampleConfig (some ()) with TokenFile := "t" }, log := some () }).2
      (sampleConfig none) rfl rfl (by decide) ⟨some (), by simp⟩ (by decide)⟩

/-! ## Hex decoding byte by byte -/

theorem fromHexChar_lowerByte (b : Nat) : hex.fromHexChar (lowerByte b) = hex.fromHexChar b := by
  unfold hex.fromHexChar lowerByte
  split_ifs <;> first | rfl | (exfalso; omega)

theorem fromHexChar_ok_iff (b : Nat) : (hex.fromHexChar b).2 = true ↔
    ((0x30 ≤ b ∧ b ≤ 0x39) ∨ (0x61 ≤ b ∧ b ≤ 0x66) ∨ (0x41 ≤ b ∧ b ≤ 0x46)) := by
  unfold hex.fromHexChar
  split_ifs <;> simp <;> omega

theorem decodeLoop_bad_first (p q : Nat) (rest dst : List Nat)
    (hp : (hex.fromHexChar p).2 = false) :
    hex.decodeLoop (p :: q :: rest) dst = (dst, some (hex.Error.InvalidByteError p)) := by
  cases h : hex.fromHexChar p with
  | mk a ok =>
    rw [h] at hp
    simp at hp
    subst hp
    rw [hex.decodeLoop]
    simp only [h]

theorem decodeLoop_bad_second (p q : Nat) (rest dst : List Nat)
    (hp : (hex.fromHexChar p).2 = true) (hq : (hex.fromHexChar q).2 = false) :
    hex.decodeLoop (p :: q :: rest) dst = (dst, some (hex.Error.InvalidByteError q)) := by
  cases h : hex.fromHexChar p with
  | mk a ok =>
    cases h2 : hex.fromHexChar q with
    | mk b ok2 =>
      rw [h] at hp
      rw [h2] at hq
      simp at hp hq
      subst hp hq
      rw [hex.decodeLoop]
      simp only [h, h2]

theorem decodeLoop_good_pair (p q : Nat) (rest dst : List Nat)
    (hp : (hex.fromHexChar p).2 = true) (hq : (hex.fromHexChar q).2 = true) :
    hex.decodeLoop (p :: q :: rest) dst
      = hex.decodeLoop rest
          (dst ++ [(((hex.fromHexChar p).1 <<< 4) % 256) ||| (hex.fromHexChar q).1]) :=
  decodeLoop_pair p q _ _ rest dst (Prod.ext rfl hp) (Prod.ext rfl hq)

theorem decodeLoop_single (p : Nat) (dst : List Nat) :
    hex.decodeLoop [p] dst
      = (dst, some (if (hex.fromHexChar p).2 = true then hex.Error.ErrLength
          else hex.Error.InvalidByteError p)) := by
  cases h : hex.fromHexChar p with
  | mk a ok =>
    cases ok <;> (rw [hex.decodeLoop]; simp [h])

theorem decodeLoop_bad_aux (n : Nat) : ∀ (bytes dst : List Nat), bytes.length ≤ n →
    (∃ b ∈ bytes, (hex.fromHexChar b).2 = false) → (hex.decodeLoop bytes dst).2 ≠ none := by
  induction n with
  | zero =>
    intro bytes dst hlen ⟨b, hb, _⟩
    have : bytes = [] := List.length_eq_zero.mp (Nat.le_zero.mp hlen)
    subst this
    cases hb
  | succ n ih =>
    intro bytes dst hlen hbad
    match bytes, hlen, hbad with
    | [], _, ⟨b, hb, _⟩ => cases hb
    | [p], _, ⟨b, hb, hbf⟩ =>
      rw [decodeLoop_single]
      simp
    | p :: q :: rest, hlen, ⟨b, hb, hbf⟩ =>
      by_cases hp : (hex.fromHexChar p).2 = true
      · by_cases hq : (hex.fromHexChar q).2 = true
        · rw [decodeLoop_good_pair p q rest dst hp hq]
          apply ih
          · simp at hlen
            omega
          · rcases List.mem_cons.mp hb with rfl | hb
            · rw [hp] at hbf
              cases hbf
            · rcases List.mem_cons.mp hb with rfl | hb
              · rw [hq] at hbf
                cases hbf
              · exact ⟨b, hb, hbf⟩
        · rw [decodeLoop_bad_second p q rest dst hp (by simpa using hq)]
          simp
      · rw [decodeLoop_bad_first p q rest dst (by simpa using hp)]
        simp

theorem decodeLoop_bad (bytes dst : List Nat)
    (h : ∃ b ∈ bytes, (hex.fromHexChar b).2 = false) : (hex.decodeLoop bytes dst).2 ≠ none :=
  decodeLoop_bad_aux bytes.length bytes dst (Nat.le_refl _) h

theorem decodeLoop_hex_aux (n : Nat) : ∀ (bytes dst : List Nat), bytes.length ≤ n →
    (∀ b ∈ bytes, (hex.fromHexChar b).2 = true) →
    (bytes.length % 2 = 0 → (hex.decodeLoop bytes dst).2 = none ∧
      (hex.decodeLoop bytes dst).1.length = dst.length + bytes.length / 2) ∧
    (bytes.length % 2 = 1 → (hex.decodeLoop bytes dst).2 = some hex.Error.ErrLength) := by
  induction n with
  | zero =>
    intro bytes dst hlen _
    have : bytes = [] := List.length_eq_zero.mp (Nat.le_zero.mp hlen)
    subst this
    simp [hex.decodeLoop]
  | succ n ih =>
    intro bytes dst hlen hall
    match bytes, hlen, hall with
    | [], _, _ => simp [hex.decodeLoop]
    | [p], _, hall =>
      have hp : (hex.fromHexChar p).2 = true := hall p (List.mem_cons_self _ _)
      rw [decodeLoop_single]
      simp [hp]
    | p :: q :: rest, hlen, hall =>
      have hp : (hex.fromHexChar p).2 = true := hall p (List.mem_cons_self _ _)
      have hq : (hex.fromHexChar q).2 = true :=
        hall q (List.mem_cons_of_mem _ (List.mem_cons_self _ _))
      have hrest : ∀ b ∈ rest, (hex.fromHexChar b).2 = true :=
        fun b hb => hall b (List.mem_cons_of_mem _ (List.mem_cons_of_mem _ hb))
      have hl : rest.length ≤ n := by
        simp at hlen
        omega
      rw [decodeLoop_good_pair p q rest dst hp hq]
      obtain ⟨h1, h2⟩ := ih rest
        (dst ++ [(((hex.fromHexChar p).1 <<< 4) % 256) ||| (hex.fromHexChar q).1]) hl hrest
      constructor
      · intro hev
        have hev2 : rest.length % 2 = 0 := by
          simp at hev
          omega
        obtain ⟨h3, h4⟩ := h1 hev2
        refine ⟨h3, ?_⟩
        rw [h4]
        simp
        omega
      · intro hodd
        have hodd2 : rest.length % 2 = 1 := by
          simp at hodd
          omega
        exact h2 hodd2

theorem decodeLoop_hex (bytes dst : List Nat)
    (h : ∀ b ∈ bytes, (hex.fromHexChar b).2 = true) :
    (bytes.length % 2 = 0 → (hex.decodeLoop bytes dst).2 = none ∧
      (hex.decodeLoop bytes dst).1.length = dst.length + bytes.length / 2) ∧
    (bytes.length % 2 = 1 → (hex.decodeLoop bytes dst).2 = some hex.Error.ErrLength) :=
  decodeLoop_hex_aux bytes.length bytes dst (Nat.le_refl _) h

/-! ## Signer strings character by character -/

theorem fromHexChar_toNat_iff (c : Char) :
    (hex.fromHexChar c.toNat).2 = true ↔ isHexDigit c :=
  fromHexChar_ok_iff c.toNat

theorem utf8Bytes_hexDigit (c : Char) (h : isHexDigit c) : utf8Bytes c = [c.toNat] := by
  have hlt : c.toNat < 0x80 := by
    unfold isHexDigit at h
    omega
  simp [utf8Bytes, hlt]

theorem utf8Bytes_bad (c : Char) (h : ¬ isHexDigit c) :
    ∃ b ∈ utf8Bytes c, (hex.fromHexChar b).2 = false := by
  by_cases hlt : c.toNat < 0x80
  · refine ⟨c.toNat, by simp [utf8Bytes, hlt], ?_⟩
    have := (fromHexChar_toNat_iff c).not.mpr h
    simpa using this
  · have hbig : ∀ b, 0x80 ≤ b → (hex.fromHexChar b).2 = false := by
      intro b hb
      have : ¬ (hex.fromHexChar b).2 = true := by
        rw [fromHexChar_ok_iff]
        omega
      simpa using this
    unfold utf8Bytes
    simp only [hlt, if_false]
    split_ifs
    · exact ⟨_, List.mem_cons_self _ _, hbig _ (by omega)⟩
    · exact ⟨_, List.mem_cons_self _ _, hbig _ (by omega)⟩
    · exact ⟨_, List.mem_cons_self _ _, hbig _ (by omega)⟩

theorem charsBytes_hex (cs : List Char) (h : ∀ c ∈ cs, isHexDigit c) :
    charsBytes cs = cs.map Char.toNat := by
  induction cs with
  | nil => rfl
  | cons c cs ih =>
    rw [charsBytes, utf8Bytes_hexDigit c (h c (List.mem_cons_self _ _)),
      ih (fun d hd => h d (List.mem_cons_of_mem _ hd))]
    rfl

theorem charsBytes_bad (cs : List Char) (h : ∃ c ∈ cs, ¬ isHexDigit c) :
    ∃ b ∈ charsBytes cs, (hex.fromHexChar b).2 = false := by
  induction cs with
  | nil =>
    obtain ⟨c, hc, _⟩ := h
    cases hc
  | cons c cs ih =>
    obtain ⟨d, hd, hbad⟩ := h
    rw [charsBytes]
    rcases List.mem_cons.mp hd with rfl | hd
    · obtain ⟨b, hb, hbf⟩ := utf8Bytes_bad d hbad
      exact ⟨b, List.mem_append_left _ hb, hbf⟩
    · obtain ⟨b, hb, hbf⟩ := ih ⟨d, hd, hbad⟩
      exact ⟨b, List.mem_append_right _ hb, hbf⟩

theorem DecodeString_bad (s : String) (h : ∃ ch ∈ s.data, ¬ isHexDigit ch) :
    (hex.DecodeString s).2 ≠ none :=
  decodeLoop_bad _ _ (charsBytes_bad s.data h)

theorem DecodeString_hex (s : String) (h : ∀ ch ∈ s.data, isHexDigit ch) :
    (s.length % 2 = 0 → (hex.DecodeString s).2 = none ∧
      (hex.DecodeString s).1.length = s.length / 2) ∧
    (s.length % 2 = 1 → (hex.DecodeString s).2 = some hex.Error.ErrLength) := by
  have hbytes : stringBytes s = s.data.map Char.toNat := charsBytes_hex s.data h
  have hall : ∀ b ∈ stringBytes s, (hex.fromHexChar b).2 = true := by
    intro b hb
    rw [hbytes] at hb
    obtain ⟨c, hc, rfl⟩ := List.mem_map.mp hb
    exact (fromHexChar_toNat_iff c).mpr (h c hc)
  have hlen : (stringBytes s).length = s.length := by
    rw [hbytes, List.length_map]
    rfl
  have := decodeLoop_hex (stringBytes s) [] hall
  rw [hlen] at this
  simpa [hex.DecodeString, hex.Decode] using this

theorem validSigner_iff_isHex64 (s : String) : validSigner s ↔ isHex64 s := by
  constructor
  · rintro ⟨h1, h2⟩
    have hall : ∀ ch ∈ s.data, isHexDigit ch := by
      by_contra hne
      push_neg at hne
      exact DecodeString_bad s hne h1
    obtain ⟨hev, hodd⟩ := DecodeString_hex s hall
    refine ⟨?_, hall⟩
    rcases Nat.mod_two_eq_zero_or_one s.length with h0 | h1'
    · have := (hev h0).2
      rw [h2] at this
      unfold PublicKeySize at this
      omega
    · have := hodd h1'
      rw [h1] at this
      cases this
  · rintro ⟨hlen, hall⟩
    obtain ⟨hev, -⟩ := DecodeString_hex s hall
    obtain ⟨h1, h2⟩ := hev (by rw [hlen])
    refine ⟨h1, ?_⟩
    rw [h2, hlen]
    rfl

/-! ## Letter case -/

theorem decodeLoop_congr_aux (n : Nat) : ∀ (xs ys dst : List Nat), xs.length ≤ n →
    xs.map hex.fromHexChar = ys.map hex.fromHexChar →
    (hex.decodeLoop xs dst).2 = none → hex.decodeLoop ys dst = hex.decodeLoop xs dst := by
  induction n with
  | zero =>
    intro xs ys dst hlen hmap _
    have : xs = [] := List.length_eq_zero.mp (Nat.le_zero.mp hlen)
    subst this
    have : ys = [] := by simpa using hmap.symm
    subst this
    rfl
  | succ n ih =>
    intro xs ys dst hlen hmap hok
    match xs, ys, hlen, hmap, hok with
    | [], ys, _, hmap, _ =>
      have : ys = [] := by simpa using hmap.symm
      subst this
      rfl
    | [p], _, _, _, hok =>
      rw [decodeLoop_single] at hok
      cases hok
    | p :: q :: rest, [], _, hmap, _ => simp at hmap
    | p :: q :: rest, [y], _, hmap, _ => simp at hmap
    | p :: q :: rest, y :: z :: more, hlen, hmap, hok =>
      simp only [List.map_cons, List.cons.injEq] at hmap
      obtain ⟨hpy, hqz, hrest⟩ := hmap
      by_cases hp : (hex.fromHexChar p).2 = true
      · by_cases hq : (hex.fromHexChar q).2 = true
        · rw [decodeLoop_good_pair p q rest dst hp hq] at hok ⊢
          rw [decodeLoop_good_pair y z more dst (hpy ▸ hp) (hqz ▸ hq), ← hpy, ← hqz]
          apply ih _ _ _ _ hrest hok
          simp at hlen
          omega
        · rw [decodeLoop_bad_second p q rest dst hp (by simpa using hq)] at hok
          cases hok
      · rw [decodeLoop_bad_first p q rest dst (by simpa using hp)] at hok
        cases hok

theorem DecodeString_sameUpToCase (s t : String) (h : sameUpToCase s t)
    (hok : (hex.DecodeString s).2 = none) : hex.DecodeString t = hex.DecodeString s := by
  have hmap : (stringBytes s).map hex.fromHexChar = (stringBytes t).map hex.fromHexChar := by
    have := congrArg (List.map hex.fromHexChar) h
    simpa [List.map_map, Function.comp_def, fromHexChar_lowerByte] using this
  exact decodeLoop_congr_aux _ _ _ [] (Nat.le_refl _) hmap hok

/-! ## When `WithChoriaConfig` returns no error -/

theorem resolveIdentity_ok_iff {R : Type} (goos : String) (lookupEnv : String → Option String)
    (c : Settings R) :
    (∃ r, resolveIdentity goos lookupEnv c.Choria.ChoriaSecurityIdentity c.InitiatedByServer
      = Except.ok r) ↔ resolvable goos lookupEnv c := by
  constructor
  · rintro ⟨r, hr⟩
    unfold resolvable
    by_cases hid : c.Choria.ChoriaSecurityIdentity = ""
    · right
      cases hs : c.InitiatedByServer with
      | true => exact Or.inl rfl
      | false =>
        right
        rw [hid, hs, resolveIdentity_client] at hr
        cases hl : lookupEnv (userEnvVar goos) with
        | none => rw [hl] at hr; cases hr
        | some u => rfl
    · exact Or.inl hid
  · intro h
    exact resolveIdentity_resolvable goos lookupEnv _ _ h

theorem decodeSigners_error_kind (l : List String) (acc : List (List Nat)) (e : Err)
    (h : decodeSigners l acc = Except.error e) :
    ∃ s ∈ l, (∃ he, e = Err.invalidKey s he) ∨ (∃ n, e = Err.invalidKeySize s n) := by
  induction l generalizing acc with
  | nil => simp [decodeSigners] at h
  | cons p ps ih =>
    by_cases hp : validSigner p
    · rw [decodeSigners_cons_valid _ _ _ hp] at h
      obtain ⟨s, hs, hk⟩ := ih _ h
      exact ⟨s, List.mem_cons_of_mem _ hs, hk⟩
    · refine ⟨p, List.mem_cons_self _ _, ?_⟩
      unfold validSigner at hp
      by_cases h1 : (hex.DecodeString p).2 = none
      · have h2 : (hex.DecodeString p).1.length ≠ PublicKeySize := fun h2 => hp ⟨h1, h2⟩
        rw [decodeSigners_cons_badSize _ _ _ h1 h2] at h
        cases h
        exact Or.inr ⟨_, rfl⟩
      · obtain ⟨he, hhe⟩ := Option.ne_none_iff_exists'.mp h1
        rw [decodeSigners_cons_badEncoding _ _ _ he hhe] at h
        cases h
        exact Or.inl ⟨_, rfl⟩

theorem WithChoriaConfig_ok_iff {R T G L : Type} (tlsConfig : Option (Settings R) → T)
    (goos : String) (lookupEnv : String → Option String) (c : Settings R)
    (st : ChoriaSecurity T G L) :
    (∃ st', WithChoriaConfig tlsConfig goos lookupEnv c st = Outcome.ret st' none) ↔
      (∀ p ∈ c.Choria.ChoriaSecurityTrustedSigners, validSigner p) ∧
        resolvable goos lookupEnv c := by
  constructor
  · rintro ⟨st', h⟩
    obtain ⟨signers, identity, hd, hi, -⟩ :=
      WithChoriaConfig_ok_inv tlsConfig goos lookupEnv c st st' h
    exact ⟨(decodeSigners_ok_inv _ _ _ hd).1,
      (resolveIdentity_ok_iff goos lookupEnv c).mp ⟨identity, hi⟩⟩
  · rintro ⟨hv, hr⟩
    obtain ⟨identity, hi⟩ := (resolveIdentity_ok_iff goos lookupEnv c).mpr hr
    exact ⟨_, WithChoriaConfig_ok tlsConfig goos lookupEnv c st _ identity
      (decodeSigners_valid _ [] hv) hi⟩

theorem decodeSigners_first_invalid (pre post : List String) (s : String)
    (acc : List (List Nat)) (hpre : ∀ p ∈ pre, validSigner p) (hs : ¬ validSigner s) :
    ∃ e, decodeSigners (pre ++ s :: post) acc = Except.error e ∧
      decodeSigners [s] [] = Except.error e ∧
      ((∃ he, (hex.DecodeString s).2 = some he ∧ e = Err.invalidKey s he) ∨
        ((hex.DecodeString s).2 = none ∧ (hex.DecodeString s).1.length ≠ 32 ∧
          e = Err.invalidKeySize s (hex.DecodeString s).1.length)) := by
  rw [decodeSigners_append_valid _ _ _ hpre]
  unfold validSigner at hs
  by_cases h1 : (hex.DecodeString s).2 = none
  · have h2 : (hex.DecodeString s).1.length ≠ PublicKeySize := fun h2 => hs ⟨h1, h2⟩
    exact ⟨_, decodeSigners_cons_badSize _ _ _ h1 h2, decodeSigners_cons_badSize _ _ _ h1 h2,
      Or.inr ⟨h1, h2, rfl⟩⟩
  · obtain ⟨he, hhe⟩ := Option.ne_none_iff_exists'.mp h1
    exact ⟨_, decodeSigners_cons_badEncoding _ _ _ he hhe,
      decodeSigners_cons_badEncoding _ _ _ he hhe, Or.inl ⟨he, hhe, rfl⟩⟩

/-! ## Claims on signer strings and on the order of the checks -/

/-- C17: for a settings source whose signer list is the single string `s` and whose
identity is resolvable, the step of `WithChoriaConfig` returns no error if and only
if `s` consists of exactly 64 characters, each a hexadecimal digit in either case;
a string of odd length or with any other character gives the invalid-key (encoding)
error; any other even-length string of hexadecimal digits gives the invalid-size
error, with half its length as size; and a string that differs from an accepted one
only in letter case decodes to the same 32-byte key. -/
theorem C17_signer_accepted_iff_hex64 {R T G L : Type} (tlsConfig : Option (Settings R) → T)
    (goos : String) (lookupEnv : String → Option String) (c : Settings R)
    (st : ChoriaSecurity T G L) (s : String)
    (hlist : c.Choria.ChoriaSecurityTrustedSigners = [s])
    (hres : resolvable goos lookupEnv c) :
    ((∃ st', WithChoriaConfig tlsConfig goos lookupEnv c st = Outcome.ret st' none) ↔
      isHex64 s) ∧
    ((s.length % 2 = 1 ∨ ∃ ch ∈ s.data, ¬ isHexDigit ch) →
      ∃ he, WithChoriaConfig tlsConfig goos lookupEnv c st
        = Outcome.ret st (some (Err.invalidKey s he))) ∧
    ((∀ ch ∈ s.data, isHexDigit ch) → s.length % 2 = 0 → s.length ≠ 64 →
      WithChoriaConfig tlsConfig goos lookupEnv c st
        = Outcome.ret st (some (Err.invalidKeySize s (s.length / 2)))) ∧
    (∀ t, isHex64 s → sameUpToCase s t →
      hex.DecodeString t = hex.DecodeString s ∧ (hex.DecodeString s).1.length = 32 ∧
        decodeSigners [t] [] = decodeSigners [s] []) := by
  refine ⟨?_, ?_, ?_, ?_⟩
  · rw [WithChoriaConfig_ok_iff, hlist, ← validSigner_iff_isHex64]
    simp [hres]
  · intro h
    have hbad : (hex.DecodeString s).2 ≠ none := by
      by_cases hall : ∀ ch ∈ s.data, isHexDigit ch
      · rcases h with hodd | ⟨ch, hch, hne⟩
        · rw [(DecodeString_hex s hall).2 hodd]
          simp
        · exact absurd (hall ch hch) hne
      · push_neg at hall
        exact DecodeString_bad s hall
    obtain ⟨he, hhe⟩ := Option.ne_none_iff_exists'.mp hbad
    refine ⟨he, WithChoriaConfig_signersError tlsConfig goos lookupEnv c st _ ?_⟩
    rw [hlist]
    exact decodeSigners_cons_badEncoding _ _ _ he hhe
  · intro hall hev hne
    obtain ⟨h1, h2⟩ := (DecodeString_hex s hall).1 hev
    have h3 : (hex.DecodeString s).1.length ≠ PublicKeySize := by
      rw [h2]
      unfold PublicKeySize
      omega
    apply WithChoriaConfig_signersError
    rw [hlist, decodeSigners_cons_badSize _ _ _ h1 h3, h2]
  · intro t hs hcase
    have hv : validSigner s := (validSigner_iff_isHex64 s).mpr hs
    have heq : hex.DecodeString t = hex.DecodeString s :=
      DecodeString_sameUpToCase s t hcase hv.1
    have hvt : validSigner t := by
      unfold validSigner
      rw [heq]
      exact hv
    refine ⟨heq, hv.2, ?_⟩
    rw [decodeSigners_cons_valid _ _ _ hvt, decodeSigners_cons_valid _ _ _ hv, heq]

/-- C17 at the signer `deadbeefSigner`: it is accepted, and so is its upper-case
form, with the same key. -/
theorem C17_signer_accepted_iff_hex64_witness :
    ((∃ st', WithChoriaConfig sampleTLS "linux" noEnv
        (sampleSettings [deadbeefSigner] "me" false) emptyState = Outcome.ret st' none) ↔
      isHex64 deadbeefSigner) ∧
    ((deadbeefSigner.length % 2 = 1 ∨ ∃ ch ∈ deadbeefSigner.data, ¬ isHexDigit ch) →
      ∃ he, WithChoriaConfig sampleTLS "linux" noEnv
          (sampleSettings [deadbeefSigner] "me" false) emptyState
        = Outcome.ret emptyState (some (Err.invalidKey deadbeefSigner he))) ∧
    ((∀ ch ∈ deadbeefSigner.data, isHexDigit ch) → deadbeefSigner.length % 2 = 0 →
      deadbeefSigner.length ≠ 64 →
      WithChoriaConfig sampleTLS "linux" noEnv
          (sampleSettings [deadbeefSigner] "me" false) emptyState
        = Outcome.ret emptyState
            (some (Err.invalidKeySize deadbeefSigner (deadbeefSigner.length / 2)))) ∧
    (∀ t, isHex64 deadbeefSigner → sameUpToCase deadbeefSigner t →
      hex.DecodeString t = hex.DecodeString deadbeefSigner ∧
        (hex.DecodeString deadbeefSigner).1.length = 32 ∧
        decodeSigners [t] [] = decodeSigners [deadbeefSigner] []) :=
  C17_signer_accepted_iff_hex64 sampleTLS "linux" noEnv
    (sampleSettings [deadbeefSigner] "me" false) emptyState deadbeefSigner rfl (by decide)

/-- C18: the step of `WithChoriaConfig` returns no error if and only if every string
of the signer list hex-decodes without error to exactly 32 bytes and the identity is
resolvable: the explicit identity is non-empty, or the server flag is true, or the
user environment variable of the host OS is present. An empty signer list with a
resolvable identity is accepted and gives an empty `TrustedTokenSigners`. -/
theorem C18_no_error_iff {R T G L : Type} (tlsConfig : Option (Settings R) → T)
    (goos : String) (lookupEnv : String → Option String) (c : Settings R)
    (st : ChoriaSecurity T G L) :
    ((∃ st', WithChoriaConfig tlsConfig goos lookupEnv c st = Outcome.ret st' none) ↔
      (∀ p ∈ c.Choria.ChoriaSecurityTrustedSigners,
          (hex.DecodeString p).2 = none ∧ (hex.DecodeString p).1.length = 32) ∧
        (c.Choria.ChoriaSecurityIdentity ≠ "" ∨ c.InitiatedByServer = true ∨
          (lookupEnv (if goos = "windows" then "USERNAME" else "USER")).isSome = true)) ∧
    (c.Choria.ChoriaSecurityTrustedSigners = [] → resolvable goos lookupEnv c →
      ∃ st' cfg, WithChoriaConfig tlsConfig goos lookupEnv c st = Outcome.ret st' none ∧
        st'.conf = some cfg ∧ cfg.TrustedTokenSigners = []) := by
  refine ⟨WithChoriaConfig_ok_iff tlsConfig goos lookupEnv c st, ?_⟩
  intro hnil hres
  obtain ⟨identity, hi⟩ := (resolveIdentity_ok_iff goos lookupEnv c).mpr hres
  refine ⟨_, _, WithChoriaConfig_ok tlsConfig goos lookupEnv c st [] identity ?_ hi, rfl, rfl⟩
  rw [hnil]
  rfl

/-- C19: signers are checked in list order and the first one that is not a valid
32-byte key decides the error: when the list is `pre ++ s :: post` with every entry
of `pre` valid and `s` not, the step returns the encoding error of `s` if `s` does
not decode and the size error of `s` otherwise, and returns that same error whatever
follows `s` in the list and whatever the identity, host OS and environment are. The
identity error is returned only when every signer is valid. -/
theorem C19_first_offender_decides {R T G L : Type} (tlsConfig : Option (Settings R) → T)
    (goos : String) (lookupEnv : String → Option String) (c : Settings R)
    (st : ChoriaSecurity T G L) :
    (∀ (pre post : List String) (s : String),
      c.Choria.ChoriaSecurityTrustedSigners = pre ++ s :: post →
      (∀ p ∈ pre, validSigner p) → ¬ validSigner s →
      ∃ e, WithChoriaConfig tlsConfig goos lookupEnv c st = Outcome.ret st (some e) ∧
        ((∃ he, (hex.DecodeString s).2 = some he ∧ e = Err.invalidKey s he) ∨
          ((hex.DecodeString s).2 = none ∧ (hex.DecodeString s).1.length ≠ 32 ∧
            e = Err.invalidKeySize s (hex.DecodeString s).1.length)) ∧
        ∀ (c2 : Settings R) (post2 : List String) (goos2 : String)
          (lookupEnv2 : String → Option String) (st2 : ChoriaSecurity T G L),
          c2.Choria.ChoriaSecurityTrustedSigners = pre ++ s :: post2 →
          WithChoriaConfig tlsConfig goos2 lookupEnv2 c2 st2 = Outcome.ret st2 (some e)) ∧
    (∀ (st' : ChoriaSecurity T G L) (v : String),
      WithChoriaConfig tlsConfig goos lookupEnv c st = Outcome.ret st' (some (Err.noIdentity v)) →
      ∀ p ∈ c.Choria.ChoriaSecurityTrustedSigners, validSigner p) := by
  constructor
  · intro pre post s hlist hpre hs
    obtain ⟨e, he, hsingle, hkind⟩ := decodeSigners_first_invalid pre post s [] hpre hs
    refine ⟨e, ?_, hkind, ?_⟩
    · apply WithChoriaConfig_signersError
      rw [hlist]
      exact he
    · intro c2 post2 goos2 lookupEnv2 st2 hlist2
      obtain ⟨e2, he2, hsingle2, -⟩ := decodeSigners_first_invalid pre post2 s [] hpre hs
      have hsame : e2 = e := by
        rw [hsingle] at hsingle2
        cases hsingle2
        rfl
      apply WithChoriaConfig_signersError
      rw [hlist2, he2, hsame]
  · intro st' v h
    obtain ⟨-, hd | ⟨hv, -⟩⟩ := WithChoriaConfig_err_inv tlsConfig goos lookupEnv c st st' _ h
    · obtain ⟨s, -, ⟨he, hk⟩ | ⟨n, hk⟩⟩ := decodeSigners_error_kind _ _ _ hd
      · cases hk
      · cases hk
    · exact hv

/-- C18 at an empty signer list in the server role with an empty environment: the
step returns no error and stores no key. -/
theorem C18_no_error_iff_witness :
    ∃ st' cfg, WithChoriaConfig sampleTLS "linux" noEnv (sampleSettings [] "" true) emptyState
        = Outcome.ret st' none ∧
      st'.conf = some cfg ∧ cfg.TrustedTokenSigners = [] :=
  (C18_no_error_iff sampleTLS "linux" noEnv (sampleSettings [] "" true) emptyState).2
    rfl (by decide)

/-- C19 at the signers `[deadbeefSigner, "zz", "abcd"]` with no resolvable identity:
the error is the encoding error of `"zz"`, not the size error of `"abcd"` nor the
identity error, and it stays the same when what follows `"zz"` is replaced. -/
theorem C19_first_offender_decides_witness :
    ∃ e, WithChoriaConfig sampleTLS "linux" noEnv
        (sampleSettings [deadbeefSigner, "zz", "abcd"] "" false) emptyState
          = Outcome.ret emptyState (some e) ∧
      ((∃ he, (hex.DecodeString "zz").2 = some he ∧ e = Err.invalidKey "zz" he) ∨
        ((hex.DecodeString "zz").2 = none ∧ (hex.DecodeString "zz").1.length ≠ 32 ∧
          e = Err.invalidKeySize "zz" (hex.DecodeString "zz").1.length)) ∧
      ∀ (c2 : Settings Unit) (post2 : List String) (goos2 : String)
        (lookupEnv2 : String → Option String) (st2 : ChoriaSecurity Unit Unit Unit),
        c2.Choria.ChoriaSecurityTrustedSigners = [deadbeefSigner] ++ "zz" :: post2 →
        WithChoriaConfig sampleTLS goos2 lookupEnv2 c2 st2 = Outcome.ret st2 (some e) :=
  (C19_first_offender_decides sampleTLS "linux" noEnv
    (sampleSettings [deadbeefSigner, "zz", "abcd"] "" false) emptyState).1
    [deadbeefSigner] ["abcd"] "zz" rfl (by decide) (by decide)

end Choria
